import Mathlib

/-!
# ConfigPortal32Adv

A shallow embedding of `ConfigPortal32Adv.h`: the configuration document `cfg`,
its persistence (`saveConfig`, `reset_config`, `loadConfig`, `maskConfig`), the
form handler `web_postConfig` and the form renderer (`html_beginGroup`,
`html_endGroup`, `html_appendInput`, `web_sendConfigPage`).

The platform libraries the header calls are not part of the repository.  They
are modelled as follows.

* ArduinoJson documents are values of `Json`; objects are association lists in
  insertion order.  Reading a member of something that is not an object gives
  `null`; assigning a member converts `null` into an object and is silently
  dropped on any other non-object value.  Numbers are integers (floating point
  values are outside the model).
* `serializeJson` and `deserializeJson` are fields of a `JsonLib` record that
  every operation using them takes as an argument.  `ArduinoJson.lib` is one
  concrete such record (compact output, a recursive descent reader), which
  reads back every document from the text it writes for it
  (`ArduinoJson.deserializeJson_serializeJson`).
* A `const char*` is an `Option String`, `none` being the null pointer.
  `strcmp` on a null pointer has no defined result and is `none`.
* LittleFS is reduced to the one file `/config.json` and the mount state.
* `Serial` output is the list `State.serial`; `State.trace` records, in order,
  the calls of `saveConfig`, of the two registered callbacks and the responses
  sent to the web client.
-/

namespace ConfigPortal

/-! ## ArduinoJson documents -/

/-- A JSON value held by an ArduinoJson document. -/
inductive Json where
  | null : Json
  | bool (b : Bool) : Json
  | num (n : Int) : Json
  | str (s : String) : Json
  | arr (xs : List Json) : Json
  | obj (kvs : List (String × Json)) : Json
  deriving Repr, Inhabited

mutual
/-- Decision procedure for equality of JSON values. -/
def Json.decEq : (a b : Json) → Decidable (a = b)
  | .null, .null => isTrue rfl
  | .bool a, .bool b =>
    if h : a = b then isTrue (by rw [h]) else isFalse (by intro e; cases e; exact h rfl)
  | .num a, .num b =>
    if h : a = b then isTrue (by rw [h]) else isFalse (by intro e; cases e; exact h rfl)
  | .str a, .str b =>
    if h : a = b then isTrue (by rw [h]) else isFalse (by intro e; cases e; exact h rfl)
  | .arr a, .arr b =>
    match Json.decEqList a b with
    | isTrue h => isTrue (by rw [h])
    | isFalse h => isFalse (by intro e; cases e; exact h rfl)
  | .obj a, .obj b =>
    match Json.decEqKvs a b with
    | isTrue h => isTrue (by rw [h])
    | isFalse h => isFalse (by intro e; cases e; exact h rfl)
  | .null, .bool _ | .null, .num _ | .null, .str _ | .null, .arr _ | .null, .obj _
  | .bool _, .null | .bool _, .num _ | .bool _, .str _ | .bool _, .arr _ | .bool _, .obj _
  | .num _, .null | .num _, .bool _ | .num _, .str _ | .num _, .arr _ | .num _, .obj _
  | .str _, .null | .str _, .bool _ | .str _, .num _ | .str _, .arr _ | .str _, .obj _
  | .arr _, .null | .arr _, .bool _ | .arr _, .num _ | .arr _, .str _ | .arr _, .obj _
  | .obj _, .null | .obj _, .bool _ | .obj _, .num _ | .obj _, .str _ | .obj _, .arr _ =>
    isFalse (by intro e; cases e)
/-- Decision procedure for equality of JSON arrays. -/
def Json.decEqList : (a b : List Json) → Decidable (a = b)
  | [], [] => isTrue rfl
  | [], _ :: _ => isFalse (by intro e; cases e)
  | _ :: _, [] => isFalse (by intro e; cases e)
  | x :: xs, y :: ys =>
    match Json.decEq x y, Json.decEqList xs ys with
    | isTrue h1, isTrue h2 => isTrue (by rw [h1, h2])
    | isFalse h1, _ => isFalse (by intro e; cases e; exact h1 rfl)
    | _, isFalse h2 => isFalse (by intro e; cases e; exact h2 rfl)
/-- Decision procedure for equality of JSON member lists. -/
def Json.decEqKvs : (a b : List (String × Json)) → Decidable (a = b)
  | [], [] => isTrue rfl
  | [], _ :: _ => isFalse (by intro e; cases e)
  | _ :: _, [] => isFalse (by intro e; cases e)
  | (k, x) :: xs, (l, y) :: ys =>
    if hk : k = l then
      match Json.decEq x y, Json.decEqKvs xs ys with
      | isTrue h1, isTrue h2 => isTrue (by rw [hk, h1, h2])
      | isFalse h1, _ => isFalse (by intro e; cases e; exact h1 rfl)
      | _, isFalse h2 => isFalse (by intro e; cases e; exact h2 rfl)
    else isFalse (by intro e; cases e; exact hk rfl)
end

instance : DecidableEq Json := Json.decEq

/-- A `const char*`; `none` is the null pointer. -/
abbrev CStr := Option String

namespace Json

/-- First member with key `k` in a member list. -/
def lookup (k : String) : List (String × Json) → Option Json
  | [] => none
  | (k', v) :: kvs => if k' = k then some v else lookup k kvs

/-- Replace the value of member `k`, or append the member when it is missing. -/
def upsert (k : String) (v : Json) : List (String × Json) → List (String × Json)
  | [] => [(k, v)]
  | (k', v') :: kvs => if k' = k then (k', v) :: kvs else (k', v') :: upsert k v kvs

/-- The library's `doc.containsKey(k)`. -/
def containsKey (d : Json) (k : String) : Bool :=
  match d with
  | obj kvs => (lookup k kvs).isSome
  | _ => false

/-- Reading `doc[k]`: the member, or `null` when there is none. -/
def getMember (d : Json) (k : String) : Json :=
  match d with
  | obj kvs => (lookup k kvs).getD null
  | _ => null

/-- Reading `doc[k]` with a `const char*` key; a null key finds nothing. -/
def getMemberC (d : Json) (k : CStr) : Json :=
  match k with
  | some k => d.getMember k
  | none => null

/-- Whether an assignment `v[k] = x` can take effect on `v`: `null` is turned
into an object, an object gets the member, anything else ignores the write. -/
def canAddMember : Json → Bool
  | null => true
  | obj _ => true
  | _ => false

/-- The assignment `doc[k] = v`. -/
def setMember (d : Json) (k : String) (v : Json) : Json :=
  match d with
  | null => obj [(k, v)]
  | obj kvs => obj (upsert k v kvs)
  | other => other

/-- The chained assignment `doc[k1][k2] = v`. -/
def setMember2 (d : Json) (k1 k2 : String) (v : Json) : Json :=
  if d.canAddMember && (d.getMember k1).canAddMember then
    d.setMember k1 ((d.getMember k1).setMember k2 v)
  else d

/-- The cast `(const char*)variant`: the string, or the null pointer when the
variant does not hold a string. -/
def asCStr : Json → CStr
  | str s => some s
  | _ => none

end Json

/-- Outcome of `deserializeJson`: the error flag and what the document holds
afterwards. -/
structure Deserialized where
  error : Bool
  doc : Json
  deriving DecidableEq

/-- The two ArduinoJson entry points the header uses. -/
structure JsonLib where
  serializeJson : Json → String
  deserializeJson : String → Deserialized

/-! ## Arduino `String` and C string helpers -/

/-- C `isspace` in the default locale. -/
def isspace (c : Char) : Bool :=
  c.toNat == 32 || (9 ≤ c.toNat && c.toNat ≤ 13)

/-- Arduino `String::trim`: drops leading and trailing `isspace` characters. -/
def trim (s : String) : String :=
  ⟨((s.data.dropWhile isspace).reverse.dropWhile isspace).reverse⟩

/-- Position of the first occurrence of `sub` in `s` at or after offset `i`
(the offset of `s` itself), `-1` when there is none. -/
def indexOfFrom (sub : List Char) : List Char → Nat → Int
  | [], _ => -1
  | c :: cs, i => if sub.isPrefixOf (c :: cs) then (i : Int) else indexOfFrom sub cs (i + 1)

/-- Arduino `String::indexOf(const String&)`. -/
def indexOf (s sub : String) : Int :=
  indexOfFrom sub.data s.data 0

/-- Arduino `String::substring(from)`. -/
def substring (s : String) (n : Nat) : String :=
  ⟨s.data.drop n⟩

/-- C `strlen`. -/
def strlen (s : String) : Nat := s.length

/-- The test `strcmp(a, b) == 0`; `none` when a null pointer is passed. -/
def strcmpEqZero (a b : CStr) : Option Bool :=
  match a, b with
  | some x, some y => some (decide (x = y))
  | _, _ => none

/-- What `html += p` appends for a `const char*`: nothing for a null pointer. -/
def cstr (p : CStr) : String := p.getD ""

/-! ## Declarations of the header -/

def JSON_BUFFER_LENGTH : Nat := 3072
def JSON_CHAR_LENGTH : Nat := 1024

structure InputField where
  inputGroup : CStr
  type : String
  name : CStr
  placeholder : CStr
  value : CStr
  checked : Bool
  deriving DecidableEq, Repr

/-- The `fields`/`count` pair as the list of the `count` descriptors; a null
`fields` pointer or a zero `count` is the empty list. -/
structure InputGroup where
  fields : List InputField
  deriving DecidableEq, Repr

inductive PostAction where
  | Save
  | SaveAndRestart
  deriving DecidableEq, Repr

/-- The literal `"{meta:{}}"` passed to `deserializeJson`. -/
def minimalJson : String := "\x7bmeta:\x7b\x7d\x7d"

/-- The document whose only member is an empty `meta` object. -/
def minimalDoc : Json := .obj [("meta", .obj [])]

def html_begin : String :=
  "<html><head>" ++
  "<meta charset='UTF-8'>" ++
  "<meta name='viewport' content='width=device-width, initial-scale=1.0'>" ++
  "<title>IOT Device Setup</title>" ++
  "<link rel='stylesheet' href='/style.css'>" ++
  "</head><body>" ++
  "<h1>Device Setup Page</h1>" ++
  "<form action='/post' method='POST'>"

def html_end : String :=
  "<p>" ++
  "<button type='submit' name='btnAction' value='save'>Save</button>" ++
  "<button type='submit' name ='btnAction' value='saveandrestart'>Save & Restart</button>" ++
  "</form>" ++
  "</body></html>"

def redirect_html : String :=
  "<html><head><meta http-equiv='refresh' content='0; URL=http:/pre_boot' /></head>" ++
  "<body><p>Redirecting</body></html>"

/-! ## Platform state -/

/-- The flash file system: whether it is mounted, whether `begin()` can mount
it, and the content of `/config.json` when that file exists. -/
structure LittleFS where
  mounted : Bool
  mountable : Bool
  cfgFile : Option String
  deriving DecidableEq, Repr

namespace LittleFS

/-- The call `LittleFS.begin()`: its result and the file system afterwards. -/
def begin (fs : LittleFS) : Bool × LittleFS :=
  if fs.mounted then (true, fs)
  else if fs.mountable then (true, { fs with mounted := true })
  else (false, fs)

/-- The call `LittleFS.format()`: an empty, mountable partition (not mounted
by the call). -/
def format (fs : LittleFS) : LittleFS :=
  { fs with mountable := true, cfgFile := none }

/-- The call `LittleFS.exists(cfgFile)`. -/
def «exists» (fs : LittleFS) : Bool :=
  fs.mounted && fs.cfgFile.isSome

/-- Opening `cfgFile` for reading and `readString()`. -/
def readString (fs : LittleFS) : String :=
  if fs.mounted then fs.cfgFile.getD "" else ""

/-- Opening `cfgFile` with mode `"w"`, writing `content`, closing. -/
def write (fs : LittleFS) (content : String) : LittleFS :=
  if fs.mounted then { fs with cfgFile := some content } else fs

end LittleFS

/-- Result of `WiFi.scanNetworks()` and the names `WiFi.SSID(i)`. -/
structure WiFiScan where
  n : Int
  SSID : Nat → String

/-- Observable calls, in the order they happen. -/
inductive Event where
  | onConfigChanging
  | saveConfig
  | onConfigChanged
  | sendConfigPage (html : Option String)
  | send (code : Nat) (contentType : String) (content : String)
  deriving DecidableEq, Repr

/-- The globals of the header together with the platform state.  The
"changing" callback takes no argument and inspects the global `cfg`, so it is
a function of the document; of the "changed" callback only its registration
and its calls are recorded. -/
structure State where
  cfg : Json
  fs : LittleFS
  onConfigChanging : Option (Json → Bool)
  onConfigChanged : Bool
  serial : List String
  trace : List Event

def registerConfigChanging (cb : Json → Bool) (st : State) : State :=
  { st with onConfigChanging := some cb }

def registerConfigChanged (st : State) : State :=
  { st with onConfigChanged := true }

/-! ## Configuration document: save, reset, mask, load -/

def saveConfig (lib : JsonLib) (st : State) : State :=
  { st with
    fs := st.fs.write (lib.serializeJson st.cfg)
    trace := st.trace ++ [Event.saveConfig] }

/-- The local `temp_cfg` of `maskConfig` when it is serialised. -/
def maskConfig_temp_cfg (cfg : Json) : Json :=
  let temp_cfg := cfg
  let temp_cfg := if cfg.containsKey "wifi_pwd" then temp_cfg.setMember "wifi_pwd" (.str "********")
    else temp_cfg
  let temp_cfg := if cfg.containsKey "token" then temp_cfg.setMember "token" (.str "********")
    else temp_cfg
  temp_cfg

/-- The text `maskConfig` leaves in `buff`. -/
def maskConfig (lib : JsonLib) (cfg : Json) : String :=
  ⟨(lib.serializeJson (maskConfig_temp_cfg cfg)).data.take (JSON_CHAR_LENGTH - 1)⟩

def loadConfig (lib : JsonLib) (st : State) : State :=
  let b := st.fs.begin
  let fs := if !b.1 then b.2.format else b.2
  if fs.exists then
    let r := lib.deserializeJson fs.readString
    if r.error then
      { st with fs := fs, cfg := (lib.deserializeJson minimalJson).doc }
    else
      { st with
        fs := fs
        cfg := r.doc
        serial := st.serial ++ ["CONFIG JSON Successfully loaded", maskConfig lib r.doc] }
  else
    { st with fs := fs, cfg := (lib.deserializeJson minimalJson).doc }

/-! ## HTML methods -/

def html_beginGroup (html : String) (label : CStr) : String :=
  let html := html ++ "<fieldset style='margin-top:1em; padding:0.5em; border:1px solid #ccc;'>"
  match label with
  | some l =>
    if strlen l > 0 then
      html ++ "<legend style='font-weight:bold;'>" ++ l ++ "</legend>"
    else html
  | none => html

def html_endGroup (html : String) : String :=
  html ++ "</fieldset>"

/-- The `<option>` elements appended by the loop over the scanned networks,
from index `i` on. -/
def html_appendOptions (wifi : WiFiScan) (fieldValue : CStr) (html : String) :
    List Nat → String
  | [] => html
  | i :: rest =>
    let ssid := trim (wifi.SSID i)
    let html := html ++ "<option value='" ++ ssid ++ "'"
    let html := if fieldValue.isSome && decide (some ssid = fieldValue) then html ++ " selected"
      else html
    let html := html ++ ">" ++ ssid ++ "</option>"
    html_appendOptions wifi fieldValue html rest

def html_appendInput (wifi : WiFiScan) (html : String) (type : String)
    (fieldName placeholderText fieldValue : CStr) (checked : Bool) : String :=
  let isCheckbox := decide (type = "checkbox")
  let isRadio := decide (type = "radio")
  let isSSID := decide (type = "ssid")
  let isTextual := !isCheckbox && !isRadio && !isSSID
  if isTextual then
    let html := html ++ "<section><div class='field'>" ++ "<input type='" ++ type ++
      "' name='" ++ cstr fieldName ++ "' id='" ++ cstr fieldName ++ "' placeholder=' '"
    let html :=
      match fieldValue with
      | some v => if strlen v > 0 then html ++ " value='" ++ v ++ "'" else html
      | none => html
    let html := html ++ ">"
    let html :=
      match placeholderText with
      | some p =>
        if strlen p > 0 then html ++ "<label for='" ++ cstr fieldName ++ "'>" ++ p ++ "</label>"
        else html
      | none => html
    html ++ "</div></section>"
  else if isSSID then
    let html := html ++ "<section><div class='field'>"
    let html :=
      if wifi.n = 0 then html ++ "<input type='text' value='No networks found' readonly />"
      else
        let html := html ++ "<select name='" ++ cstr fieldName ++ "' id='" ++ cstr fieldName ++ "'>"
        let html := html_appendOptions wifi fieldValue html (List.range wifi.n.toNat)
        html ++ "</select>"
    let html := html ++ "<label for='" ++ cstr fieldName ++ "'>"
    let html :=
      match placeholderText with
      | some p => if strlen p > 0 then html ++ p else html ++ "Select WiFi Network"
      | none => html ++ "Select WiFi Network"
    html ++ "</label></div></section>"
  else
    let html := html ++ "<p>"
    let html :=
      if isCheckbox then html ++ "<input type='hidden' name='" ++ cstr fieldName ++ "' value='0'>"
      else html
    let html := html ++ "<input type='" ++ type ++ "' name='" ++ cstr fieldName ++ "' value='1'"
    let html := if checked then html ++ " checked" else html
    let html := html ++ ">"
    let html :=
      match placeholderText with
      | some p => if strlen p > 0 then html ++ " " ++ p else html
      | none => html
    html ++ "</p>"

/-! ## The configuration page -/

/-- The flag `cfgOK` of `web_sendConfigPage`; `none` when `strcmp` receives the
null pointer that the cast of a non-string `config` member yields. -/
def web_sendConfigPage_cfgOK (cfg : Json) : Option Bool :=
  if cfg.containsKey "config" then
    strcmpEqZero (cfg.getMember "config").asCStr (some "done")
  else some false

/-- The `for` loop of `web_sendConfigPage` over the remaining descriptors, on
the locals `groupname` and `html`. -/
def web_sendConfigPage_loop (wifi : WiFiScan) (cfg : Json) (cfgOK : Bool) :
    List InputField → CStr × String → Option (CStr × String)
  | [], acc => some acc
  | f :: rest, (groupname, html) =>
    let differs : Option Bool :=
      match groupname with
      | none => some true
      | some _ => (strcmpEqZero groupname f.inputGroup).map (fun b => !b)
    match differs with
    | none => none
    | some newGroup =>
      let html := if newGroup then (if groupname.isSome then html_endGroup html else html) else html
      let groupname := if newGroup then f.inputGroup else groupname
      let html := if newGroup then html_beginGroup html f.inputGroup else html
      let html := html_appendInput wifi html f.type f.name f.placeholder
        (if cfgOK then (cfg.getMemberC f.name).asCStr else f.value) f.checked
      web_sendConfigPage_loop wifi cfg cfgOK rest (groupname, html)

/-- The page `web_sendConfigPage` sends with `sendContent`; `none` when building
it runs into a `strcmp` on a null pointer. -/
def web_sendConfigPage (wifi : WiFiScan) (userInputs : InputGroup) (cfg : Json) :
    Option String :=
  let html := "" ++ html_begin
  match web_sendConfigPage_cfgOK cfg with
  | none => none
  | some cfgOK =>
    if userInputs.fields.length > 0 then
      match web_sendConfigPage_loop wifi cfg cfgOK userInputs.fields (none, html) with
      | none => none
      | some (_, html) => some (html_endGroup html ++ html_end)
    else some (html ++ html_end)

/-! ## The form handler -/

/-- The `for` loop of `web_postConfig` over the submitted arguments, on the
global `cfg` and the local `act`. -/
def web_postConfig_loop : List (String × String) → Json × PostAction → Json × PostAction
  | [], acc => acc
  | (argName, arg) :: rest, (cfg, act) =>
    if argName = "btnAction" then
      let act :=
        if arg = "save" then PostAction.Save
        else if arg = "saveandrestart" then PostAction.SaveAndRestart
        else act
      web_postConfig_loop rest (cfg, act)
    else if indexOf argName "meta." = 0 then
      web_postConfig_loop rest (cfg.setMember2 "meta" (substring argName 5) (.str (trim arg)), act)
    else
      web_postConfig_loop rest (cfg.setMember argName (.str (trim arg)), act)

/-- The tail of `web_postConfig` after the "changing" callback accepted (or
none is registered): save, notify, respond. -/
def web_postConfig_accepted (lib : JsonLib) (wifi : WiFiScan) (userInputs : InputGroup)
    (act : PostAction) (st : State) : State :=
  let st := saveConfig lib st
  let st :=
    if st.onConfigChanged then { st with trace := st.trace ++ [Event.onConfigChanged] }
    else st
  if act = PostAction.Save then
    { st with
      trace := st.trace ++ [Event.sendConfigPage (web_sendConfigPage wifi userInputs st.cfg)] }
  else
    { st with trace := st.trace ++ [Event.send 200 "text/html" redirect_html] }

/-- The handler of `/post`.  `args` are the submitted name/value pairs in
order; `act0` stands for the indeterminate initial value of the local `act`,
which the handler reads when no `btnAction` argument assigned it. -/
def web_postConfig (lib : JsonLib) (wifi : WiFiScan) (userInputs : InputGroup)
    (args : List (String × String)) (act0 : PostAction) (st : State) : State :=
  let r := web_postConfig_loop args (st.cfg, act0)
  let act := r.2
  let st := { st with cfg := r.1.setMember "config" (.str "done") }
  match st.onConfigChanging with
  | some cb =>
    let st := { st with trace := st.trace ++ [Event.onConfigChanging] }
    let ok := cb st.cfg
    if !ok then
      { st with
        serial := st.serial ++ ["Config rejected by callback"]
        trace := st.trace ++ [Event.sendConfigPage (web_sendConfigPage wifi userInputs st.cfg)] }
    else web_postConfig_accepted lib wifi userInputs act st
  | none => web_postConfig_accepted lib wifi userInputs act st

/-! ## A concrete `JsonLib`

Compact JSON text as ArduinoJson writes it, and a reader for it that also takes
member names without quotes and strings in single quotes.  Numbers are
integers; `\u` escapes are not read. -/

namespace ArduinoJson

def quoteChar : Char := Char.ofNat 34
def aposChar : Char := Char.ofNat 39
def bslashChar : Char := Char.ofNat 92

/-- The letter written after a backslash for `c`, when `c` is escaped. -/
def escapeChar (c : Char) : Option Char :=
  if c = quoteChar then some quoteChar
  else if c = bslashChar then some bslashChar
  else if c.toNat = 8 then some 'b'
  else if c.toNat = 12 then some 'f'
  else if c.toNat = 10 then some 'n'
  else if c.toNat = 13 then some 'r'
  else if c.toNat = 9 then some 't'
  else none

/-- The character an escape letter stands for. -/
def unescapeChar (e : Char) : Option Char :=
  if e = quoteChar then some quoteChar
  else if e = bslashChar then some bslashChar
  else if e = '/' then some '/'
  else if e = 'b' then some (Char.ofNat 8)
  else if e = 'f' then some (Char.ofNat 12)
  else if e = 'n' then some (Char.ofNat 10)
  else if e = 'r' then some (Char.ofNat 13)
  else if e = 't' then some (Char.ofNat 9)
  else none

def writeChars : List Char → List Char
  | [] => []
  | c :: cs =>
    match escapeChar c with
    | some e => bslashChar :: e :: writeChars cs
    | none => c :: writeChars cs

def writeString (s : String) : List Char :=
  quoteChar :: writeChars s.data ++ [quoteChar]

/-- Decimal digits of a natural number. -/
def writeNat (n : Nat) : List Char := Nat.toDigits 10 n

/-- Decimal text of an integer. -/
def writeInt : Int → List Char
  | Int.ofNat m => writeNat m
  | Int.negSucc m => '-' :: writeNat (m + 1)

mutual
def writeValue : Json → List Char
  | .null => "null".data
  | .bool b => if b then "true".data else "false".data
  | .num n => writeInt n
  | .str s => writeString s
  | .arr xs => '[' :: writeElements xs ++ [']']
  | .obj kvs => (Char.ofNat 123) :: writeMembers kvs ++ [Char.ofNat 125]
def writeElements : List Json → List Char
  | [] => []
  | [x] => writeValue x
  | x :: y :: xs => writeValue x ++ ',' :: writeElements (y :: xs)
def writeMembers : List (String × Json) → List Char
  | [] => []
  | [(k, v)] => writeString k ++ ':' :: writeValue v
  | (k, v) :: m :: kvs => writeString k ++ ':' :: writeValue v ++ ',' :: writeMembers (m :: kvs)
end

def serializeJson (d : Json) : String := ⟨writeValue d⟩

def skipSpaces (cs : List Char) : List Char := cs.dropWhile isspace

/-- Characters a member name without quotes may consist of. -/
def canBeInNonQuotedString (c : Char) : Bool :=
  ('0'.toNat ≤ c.toNat && c.toNat ≤ '9'.toNat) ||
  ('_'.toNat ≤ c.toNat && c.toNat ≤ 'z'.toNat) ||
  ('A'.toNat ≤ c.toNat && c.toNat ≤ 'Z'.toNat)

/-- Reads the rest of a quoted string up to the closing `quote`. -/
def readQuoted (quote : Char) : List Char → Option (List Char × List Char)
  | [] => none
  | c :: cs =>
    if c = quote then some ([], cs)
    else if c = bslashChar then
      match cs with
      | [] => none
      | e :: cs2 =>
        match unescapeChar e, readQuoted quote cs2 with
        | some x, some (s, r) => some (x :: s, r)
        | _, _ => none
    else
      match readQuoted quote cs with
      | some (s, r) => some (c :: s, r)
      | none => none

/-- Reads a string: quoted, or a run of name characters. -/
def readString (cs : List Char) : Option (String × List Char) :=
  match cs with
  | [] => none
  | c :: rest =>
    if c = quoteChar || c = aposChar then
      (readQuoted c rest).map (fun p => (⟨p.1⟩, p.2))
    else if canBeInNonQuotedString c then
      some (⟨(c :: rest).takeWhile canBeInNonQuotedString⟩,
        (c :: rest).dropWhile canBeInNonQuotedString)
    else none

/-- Value of a run of decimal digits. -/
def digitsValue (ds : List Char) : Nat :=
  ds.foldl (fun acc d => 10 * acc + (d.toNat - '0'.toNat)) 0

/-- Reads an integer; a fraction or exponent is not accepted. -/
def readNumber (cs : List Char) : Option (Int × List Char) :=
  let neg := cs.head? = some '-'
  let body := if neg then cs.drop 1 else cs
  let ds := body.takeWhile Char.isDigit
  let rest := body.dropWhile Char.isDigit
  if ds.isEmpty then none
  else if rest.head? = some '.' || rest.head? = some 'e' || rest.head? = some 'E' then none
  else some (if neg then -(digitsValue ds : Int) else (digitsValue ds : Int), rest)

mutual
def readValue : Nat → List Char → Option (Json × List Char)
  | 0, _ => none
  | fuel + 1, cs =>
    match skipSpaces cs with
    | [] => none
    | c :: rest =>
      if c = Char.ofNat 123 then
        match skipSpaces rest with
        | [] => none
        | c2 :: rest2 =>
          if c2 = Char.ofNat 125 then some (.obj [], rest2)
          else (readMembers fuel (c2 :: rest2)).map (fun p => (.obj p.1, p.2))
      else if c = '[' then
        match skipSpaces rest with
        | [] => none
        | c2 :: rest2 =>
          if c2 = ']' then some (.arr [], rest2)
          else (readElements fuel (c2 :: rest2)).map (fun p => (.arr p.1, p.2))
      else if c = quoteChar || c = aposChar then
        (readQuoted c rest).map (fun p => (.str ⟨p.1⟩, p.2))
      else if "true".data.isPrefixOf (c :: rest) then some (.bool true, (c :: rest).drop 4)
      else if "false".data.isPrefixOf (c :: rest) then some (.bool false, (c :: rest).drop 5)
      else if "null".data.isPrefixOf (c :: rest) then some (.null, (c :: rest).drop 4)
      else (readNumber (c :: rest)).map (fun p => (.num p.1, p.2))
def readElements : Nat → List Char → Option (List Json × List Char)
  | 0, _ => none
  | fuel + 1, cs =>
    match readValue fuel cs with
    | none => none
    | some (v, rest) =>
      match skipSpaces rest with
      | [] => none
      | c :: rest2 =>
        if c = ']' then some ([v], rest2)
        else if c = ',' then (readElements fuel rest2).map (fun p => (v :: p.1, p.2))
        else none
def readMembers : Nat → List Char → Option (List (String × Json) × List Char)
  | 0, _ => none
  | fuel + 1, cs =>
    match readString (skipSpaces cs) with
    | none => none
    | some (k, rest) =>
      match skipSpaces rest with
      | [] => none
      | c :: rest2 =>
        if c = ':' then
          match readValue fuel rest2 with
          | none => none
          | some (v, rest3) =>
            match skipSpaces rest3 with
            | [] => none
            | c3 :: rest4 =>
              if c3 = Char.ofNat 125 then some ([(k, v)], rest4)
              else if c3 = ',' then
                (readMembers fuel rest4).map (fun p => ((k, v) :: p.1, p.2))
              else none
        else none
end

/-- Reads one value from `input`; what follows the value is not looked at.  On
an error the document is left empty. -/
def deserializeJson (input : String) : Deserialized :=
  match readValue (input.length + 1) input.data with
  | some (d, _) => { error := false, doc := d }
  | none => { error := true, doc := .null }

/-- Where the text of a value may end: at the end of the input or before a
comma or a closing bracket. -/
def isValueEnd : List Char → Bool
  | [] => true
  | c :: _ => c == ',' || c == Char.ofNat 125 || c == ']'

/-- A character a value's text can start with: it is no white space and none of
the separators. -/
def isValueStart (c : Char) : Bool :=
  !isspace c && c != ']' && c != Char.ofNat 125 && c != ','

/-- The concrete library record. -/
def lib : JsonLib :=
  { serializeJson := serializeJson, deserializeJson := deserializeJson }

end ArduinoJson

/-! ## Definitions used to state the properties

None of the definitions below translates a function of the header.  They name
sample inputs and the expected results (markup, event lists, runs of equal
group names) that the theorems compare with the translated functions. -/

/-- The document `web_postConfig` has built in `cfg` when it consults the
"changing" callback. -/
def submittedCfg (args : List (String × String)) (act0 : PostAction) (cfg : Json) : Json :=
  (web_postConfig_loop args (cfg, act0)).1.setMember "config" (.str "done")

/-- A freshly started device: empty document, mounted empty file system, no
callbacks. -/
def freshState : State :=
  { cfg := .null, fs := { mounted := true, mountable := true, cfgFile := none },
    onConfigChanging := none, onConfigChanged := false, serial := [], trace := [] }

/-- No networks in range. -/
def noNetworks : WiFiScan := { n := 0, SSID := fun _ => "" }

/-- The events `web_postConfig` adds when the submission is accepted. -/
def acceptedEvents (wifi : WiFiScan) (userInputs : InputGroup) (act : PostAction)
    (changingRegistered changedRegistered : Bool) (cfg : Json) : List Event :=
  (if changingRegistered then [Event.onConfigChanging] else []) ++
  [Event.saveConfig] ++
  (if changedRegistered then [Event.onConfigChanged] else []) ++
  [if act = PostAction.Save then Event.sendConfigPage (web_sendConfigPage wifi userInputs cfg)
   else Event.send 200 "text/html" redirect_html]

/-- The file system `loadConfig` reads from: mounted if possible, formatted
otherwise. -/
def LittleFS.canMount (fs : LittleFS) : Bool := fs.mounted || fs.mountable

/-- Concatenation of a list of strings. -/
def joinAll : List String → String
  | [] => ""
  | s :: l => s ++ joinAll l

/-- The document is marked configured: a top-level `config` equal to `"done"`. -/
def markedConfigured (cfg : Json) : Bool :=
  cfg.containsKey "config" && decide (cfg.getMember "config" = .str "done")

/-- The value argument `web_sendConfigPage` passes to `html_appendInput`. -/
def fieldValue (cfg : Json) (cfgOK : Bool) (f : InputField) : CStr :=
  if cfgOK then (cfg.getMemberC f.name).asCStr else f.value

/-- The markup of one descriptor. -/
def fieldMarkup (wifi : WiFiScan) (cfg : Json) (cfgOK : Bool) (f : InputField) : String :=
  html_appendInput wifi "" f.type f.name f.placeholder (fieldValue cfg cfgOK f) f.checked

/-- What the loop emits before a descriptor of group `g` when the current
group is `groupname`. -/
def groupBoundary (groupname g : CStr) : String :=
  match groupname with
  | none => html_beginGroup "" g
  | some x => if some x = g then "" else html_endGroup "" ++ html_beginGroup "" g

/-- Everything the loop appends for the descriptors `fields`, entered with the
current group `groupname`. -/
def formBody (wifi : WiFiScan) (cfg : Json) (cfgOK : Bool) : CStr → List InputField → String
  | _, [] => ""
  | groupname, f :: rest =>
    groupBoundary groupname f.inputGroup ++ fieldMarkup wifi cfg cfgOK f ++
      formBody wifi cfg cfgOK f.inputGroup rest

/-- The `value` attribute of a textual input. -/
def valueAttr (fieldValue : CStr) : String :=
  match fieldValue with
  | some v => if v = "" then "" else " value='" ++ v ++ "'"
  | none => ""

/-- The label following a textual input. -/
def labelFor (fieldName placeholderText : CStr) : String :=
  match placeholderText with
  | some p => if p = "" then "" else "<label for='" ++ cstr fieldName ++ "'>" ++ p ++ "</label>"
  | none => ""

/-- The markup of a textual input. -/
def textInputMarkup (type : String) (fieldName placeholderText fieldValue : CStr) : String :=
  "<section><div class='field'>" ++
  "<input type='" ++ type ++ "' name='" ++ cstr fieldName ++ "' id='" ++ cstr fieldName ++
    "' placeholder=' '" ++ valueAttr fieldValue ++ ">" ++
  labelFor fieldName placeholderText ++
  "</div></section>"

/-- The closing tag after the loop: present when there is a descriptor. -/
def formClose (fields : List InputField) : String :=
  if fields.length > 0 then html_endGroup "" else ""

/-- The current group after the loop went through `pre`. -/
def groupAfter (groupname : CStr) (pre : List InputField) : CStr :=
  match pre.getLast? with
  | some f => f.inputGroup
  | none => groupname

/-- The maximal runs of consecutive descriptors with equal group name. -/
def groupRuns : List InputField → List (List InputField)
  | [] => []
  | f :: fs =>
    match groupRuns fs with
    | (g :: r) :: rs =>
      if f.inputGroup = g.inputGroup then (f :: g :: r) :: rs else [f] :: (g :: r) :: rs
    | _ => [[f]]

/-- The legend of a container: present for a group name that is not empty. -/
def legendMarkup (label : CStr) : String :=
  match label with
  | some l => if l = "" then "" else "<legend style='font-weight:bold;'>" ++ l ++ "</legend>"
  | none => ""

/-- One container: opening tag, legend, the markup of the run's descriptors,
closing tag. -/
def renderRun (wifi : WiFiScan) (cfg : Json) (cfgOK : Bool) (run : List InputField) : String :=
  match run with
  | [] => ""
  | f :: rest =>
    "<fieldset style='margin-top:1em; padding:0.5em; border:1px solid #ccc;'>" ++
    legendMarkup f.inputGroup ++
    joinAll ((f :: rest).map (fieldMarkup wifi cfg cfgOK)) ++
    "</fieldset>"

/-- The page around the markup of the descriptor `f`, which stands between the
descriptors `pre` and `post`. -/
def pageWith (wifi : WiFiScan) (cfg : Json) (pre : List InputField) (f : InputField)
    (post : List InputField) (markup : String) : String :=
  html_begin ++ formBody wifi cfg (markedConfigured cfg) none pre ++
    groupBoundary (groupAfter none pre) f.inputGroup ++ markup ++
    formBody wifi cfg (markedConfigured cfg) f.inputGroup post ++ "</fieldset>" ++ html_end

/-- A text field with default `device1` in a group `Device`. -/
def nameField : InputField :=
  { inputGroup := some "Device", type := "text", name := some "name",
    placeholder := some "Name", value := some "device1", checked := false }

/-- The page for the single descriptor `nameField` with the given `value`
attribute. -/
def nameFieldPage (valueAttribute : String) : String :=
  html_begin ++
  "<fieldset style='margin-top:1em; padding:0.5em; border:1px solid #ccc;'>" ++
  "<legend style='font-weight:bold;'>Device</legend>" ++
  "<section><div class='field'>" ++
  "<input type='text' name='name' id='name' placeholder=' '" ++ valueAttribute ++ ">" ++
  "<label for='name'>Name</label>" ++
  "</div></section>" ++
  "</fieldset>" ++
  html_end

/-- The text field of `nameField` under the key `meta.x`. -/
def metaField : InputField := { nameField with name := some "meta.x" }

/-- The page for the single descriptor `metaField` with the given `value`
attribute. -/
def metaFieldPage (valueAttribute : String) : String :=
  html_begin ++
  "<fieldset style='margin-top:1em; padding:0.5em; border:1px solid #ccc;'>" ++
  "<legend style='font-weight:bold;'>Device</legend>" ++
  "<section><div class='field'>" ++
  "<input type='text' name='meta.x' id='meta.x' placeholder=' '" ++ valueAttribute ++ ">" ++
  "<label for='meta.x'>Name</label>" ++
  "</div></section>" ++
  "</fieldset>" ++
  html_end

/-- The pairs a browser submits for the markup of a checkbox named `name`: the
hidden input always, then the checkbox itself when it is ticked. -/
def checkboxPairs (name : String) (ticked : Bool) : List (String × String) :=
  (name, "0") :: (if ticked then [(name, "1")] else [])

/-- The text after a checkbox or radio input. -/
def choiceText (placeholderText : CStr) : String :=
  match placeholderText with
  | some p => if p = "" then "" else " " ++ p
  | none => ""

end ConfigPortal

/-! # Properties -/

namespace ConfigPortal

/-! ## Member lists and documents -/

namespace Json

theorem lookup_upsert_self (k : String) (v : Json) (kvs : List (String × Json)) :
    lookup k (upsert k v kvs) = some v := by
  induction kvs with
  | nil => simp [upsert, lookup]
  | cons p kvs ih =>
    obtain ⟨k', v'⟩ := p
    by_cases h : k' = k
    · simp [upsert, lookup, h]
    · simp [upsert, lookup, h, ih]

theorem lookup_upsert_ne {k k' : String} (h : k' ≠ k) (v : Json) (kvs : List (String × Json)) :
    lookup k' (upsert k v kvs) = lookup k' kvs := by
  induction kvs with
  | nil => simp [upsert, lookup, Ne.symm h]
  | cons p kvs ih =>
    obtain ⟨k2, v2⟩ := p
    by_cases h2 : k2 = k
    · subst h2
      simp [upsert, lookup, Ne.symm h]
    · by_cases h3 : k2 = k'
      · subst h3
        simp [upsert, lookup, h]
      · simp [upsert, lookup, h2, h3, ih]

theorem getMember_setMember_self {d : Json} (hd : d.canAddMember = true) (k : String) (v : Json) :
    (d.setMember k v).getMember k = v := by
  cases d <;> simp [canAddMember] at hd <;>
    simp [setMember, getMember, lookup, lookup_upsert_self]

theorem getMember_setMember_ne (d : Json) {k k' : String} (h : k' ≠ k) (v : Json) :
    (d.setMember k v).getMember k' = d.getMember k' := by
  cases d <;> simp [setMember, getMember, lookup, lookup_upsert_ne h, Ne.symm h]

theorem canAddMember_setMember (d : Json) (k : String) (v : Json) :
    (d.setMember k v).canAddMember = d.canAddMember := by
  cases d <;> simp [setMember, canAddMember]

theorem containsKey_setMember_ne (d : Json) {k k' : String} (h : k' ≠ k) (v : Json) :
    (d.setMember k v).containsKey k' = d.containsKey k' := by
  cases d <;> simp [setMember, containsKey, lookup, lookup_upsert_ne h, Ne.symm h]

theorem canAddMember_setMember2 (d : Json) (k1 k2 : String) (v : Json) :
    (d.setMember2 k1 k2 v).canAddMember = d.canAddMember := by
  unfold setMember2
  split
  · exact canAddMember_setMember _ _ _
  · rfl

theorem getMember_setMember2_ne (d : Json) {k1 k' : String} (h : k' ≠ k1) (k2 : String)
    (v : Json) : (d.setMember2 k1 k2 v).getMember k' = d.getMember k' := by
  unfold setMember2
  split
  · exact getMember_setMember_ne _ h _
  · rfl

theorem containsKey_setMember2_ne (d : Json) {k1 k' : String} (h : k' ≠ k1) (k2 : String)
    (v : Json) : (d.setMember2 k1 k2 v).containsKey k' = d.containsKey k' := by
  unfold setMember2
  split
  · exact containsKey_setMember_ne _ h _
  · rfl

theorem getMember_setMember2_self {d : Json} (hd : d.canAddMember = true) (k1 k2 : String)
    (hm : (d.getMember k1).canAddMember = true) (v : Json) :
    (d.setMember2 k1 k2 v).getMember k1 = (d.getMember k1).setMember k2 v := by
  simp [setMember2, hd, hm, getMember_setMember_self hd]

theorem setMember2_of_not_canAddMember {d : Json} (k1 k2 : String)
    (hm : (d.getMember k1).canAddMember = false) (v : Json) :
    d.setMember2 k1 k2 v = d := by
  simp [setMember2, hm]

end Json

/-! ## Strings -/

theorem indexOfFrom_ne_zero (sub cs : List Char) (i : Nat) (hi : 0 < i) :
    indexOfFrom sub cs i ≠ 0 := by
  induction cs generalizing i with
  | nil => simp [indexOfFrom]
  | cons c cs ih =>
    unfold indexOfFrom
    split
    · omega
    · exact ih (i + 1) (by omega)

/-- `indexOf` gives `0` exactly for the strings that start with `"meta."`. -/
theorem indexOf_meta_eq_zero_iff (k : String) :
    indexOf k "meta." = 0 ↔ ∃ x : String, k = "meta." ++ x := by
  have hpre : indexOf k "meta." = 0 ↔ "meta.".data <+: k.data := by
    unfold indexOf
    cases hk : k.data with
    | nil => simp [indexOfFrom]
    | cons c cs =>
      unfold indexOfFrom
      by_cases hp : "meta.".data.isPrefixOf (c :: cs) = true
      · simp only [hp, if_true]
        simpa using List.isPrefixOf_iff_prefix.mp hp
      · simp only [hp]
        constructor
        · intro h
          exact absurd h (indexOfFrom_ne_zero _ _ _ (by omega))
        · intro h
          exact absurd (List.isPrefixOf_iff_prefix.mpr h) hp
  rw [hpre]
  constructor
  · rintro ⟨t, ht⟩
    refine ⟨⟨t⟩, ?_⟩
    apply String.ext
    rw [String.data_append, ← ht]
  · rintro ⟨x, rfl⟩
    exact ⟨x.data, by rw [String.data_append]⟩

theorem substring_meta_append (x : String) : substring ("meta." ++ x) 5 = x := by
  apply String.ext
  simp [substring, String.data_append]

theorem meta_append_ne_meta (x : String) : "meta." ++ x ≠ "meta" := by
  intro h
  have := congrArg String.length h
  simp [String.length_append] at this
  have h5 : "meta.".length = 5 := by decide
  have h4 : "meta".length = 4 := by decide
  omega

theorem meta_append_ne_btnAction (x : String) : "meta." ++ x ≠ "btnAction" := by
  intro h
  have h2 := congrArg String.data h
  rw [String.data_append] at h2
  have h3 := congrArg List.head? h2
  simp at h3

theorem meta_append_ne_config (x : String) : "meta." ++ x ≠ "config" := by
  intro h
  have h2 := congrArg String.data h
  rw [String.data_append] at h2
  have h3 := congrArg List.head? h2
  simp at h3

theorem meta_append_inj {x y : String} (h : "meta." ++ x = "meta." ++ y) : x = y := by
  have h2 := congrArg String.data h
  rw [String.data_append, String.data_append] at h2
  exact String.ext (List.append_cancel_left h2)

/-! ## The argument loop of `web_postConfig` -/

theorem web_postConfig_loop_append (pre post : List (String × String))
    (acc : Json × PostAction) :
    web_postConfig_loop (pre ++ post) acc = web_postConfig_loop post (web_postConfig_loop pre acc) := by
  induction pre generalizing acc with
  | nil => rfl
  | cons p pre ih =>
    obtain ⟨k, v⟩ := p
    obtain ⟨cfg, act⟩ := acc
    simp only [List.cons_append, web_postConfig_loop]
    split
    · exact ih _
    · split
      · exact ih _
      · exact ih _

/-- The loop never changes whether `cfg` can take members. -/
theorem web_postConfig_loop_canAddMember (args : List (String × String)) (cfg : Json)
    (act : PostAction) :
    (web_postConfig_loop args (cfg, act)).1.canAddMember = cfg.canAddMember := by
  induction args generalizing cfg act with
  | nil => rfl
  | cons p args ih =>
    obtain ⟨k, v⟩ := p
    simp only [web_postConfig_loop]
    split
    · exact ih _ _
    · split
      · rw [ih, Json.canAddMember_setMember2]
      · rw [ih, Json.canAddMember_setMember]

/-- The loop leaves the member `btnAction` of `cfg` as it was. -/
theorem web_postConfig_loop_btnAction (args : List (String × String)) (cfg : Json)
    (act : PostAction) :
    (web_postConfig_loop args (cfg, act)).1.getMember "btnAction" = cfg.getMember "btnAction" ∧
    (web_postConfig_loop args (cfg, act)).1.containsKey "btnAction" =
      cfg.containsKey "btnAction" := by
  induction args generalizing cfg act with
  | nil => exact ⟨rfl, rfl⟩
  | cons p args ih =>
    obtain ⟨k, v⟩ := p
    simp only [web_postConfig_loop]
    split
    · exact ih _ _
    · rename_i hk
      split
      · rw [(ih _ _).1, (ih _ _).2,
          Json.getMember_setMember2_ne _ (by decide), Json.containsKey_setMember2_ne _ (by decide)]
        exact ⟨rfl, rfl⟩
      · rw [(ih _ _).1, (ih _ _).2,
          Json.getMember_setMember_ne _ (Ne.symm hk), Json.containsKey_setMember_ne _ (Ne.symm hk)]
        exact ⟨rfl, rfl⟩

/-- A top-level string member survives the pairs submitted under other names. -/
theorem web_postConfig_loop_keeps_top (k s : String) (args : List (String × String))
    (hargs : ∀ p ∈ args, p.1 ≠ k) (cfg : Json) (act : PostAction)
    (h : cfg.getMember k = .str s) :
    (web_postConfig_loop args (cfg, act)).1.getMember k = .str s := by
  induction args generalizing cfg act with
  | nil => exact h
  | cons p args ih =>
    obtain ⟨k2, v⟩ := p
    have hk2 : k2 ≠ k := hargs (k2, v) (List.mem_cons_self _ _)
    have hrest : ∀ p ∈ args, p.1 ≠ k := fun p hp => hargs p (List.mem_cons_of_mem _ hp)
    simp only [web_postConfig_loop]
    split
    · exact ih hrest _ _ h
    · split
      · apply ih hrest
        by_cases hm : k = "meta"
        · subst hm
          rw [Json.setMember2_of_not_canAddMember _ _ (by rw [h]; rfl)]
          exact h
        · rw [Json.getMember_setMember2_ne _ hm]
          exact h
      · apply ih hrest
        rw [Json.getMember_setMember_ne _ (Ne.symm hk2)]
        exact h

/-- While no pair is named `meta`, the `meta` member stays able to take
members. -/
theorem web_postConfig_loop_meta_canAddMember (args : List (String × String))
    (hargs : ∀ p ∈ args, p.1 ≠ "meta") (cfg : Json) (act : PostAction)
    (hm : (cfg.getMember "meta").canAddMember = true) :
    ((web_postConfig_loop args (cfg, act)).1.getMember "meta").canAddMember = true := by
  induction args generalizing cfg act with
  | nil => exact hm
  | cons p args ih =>
    obtain ⟨k2, v⟩ := p
    have hk2 : k2 ≠ "meta" := hargs (k2, v) (List.mem_cons_self _ _)
    have hrest : ∀ p ∈ args, p.1 ≠ "meta" := fun p hp => hargs p (List.mem_cons_of_mem _ hp)
    simp only [web_postConfig_loop]
    split
    · exact ih hrest _ _ hm
    · split
      · apply ih hrest
        by_cases hd : cfg.canAddMember = true
        · rw [Json.getMember_setMember2_self hd _ _ hm, Json.canAddMember_setMember]
          exact hm
        · simp only [Json.setMember2, hd]
          simpa using hm
      · apply ih hrest
        rw [Json.getMember_setMember_ne _ (Ne.symm hk2)]
        exact hm

/-- A member of `meta` survives the pairs submitted under other names, as long
as none of them is named `meta`. -/
theorem web_postConfig_loop_keeps_meta (x : String) (val : Json)
    (args : List (String × String))
    (hargs : ∀ p ∈ args, p.1 ≠ "meta" ∧ p.1 ≠ "meta." ++ x) (cfg : Json) (act : PostAction)
    (h : (cfg.getMember "meta").getMember x = val) :
    ((web_postConfig_loop args (cfg, act)).1.getMember "meta").getMember x = val := by
  induction args generalizing cfg act with
  | nil => exact h
  | cons p args ih =>
    obtain ⟨k2, v⟩ := p
    have hk2 := hargs (k2, v) (List.mem_cons_self _ _)
    have hrest : ∀ p ∈ args, p.1 ≠ "meta" ∧ p.1 ≠ "meta." ++ x :=
      fun p hp => hargs p (List.mem_cons_of_mem _ hp)
    simp only [web_postConfig_loop]
    split
    · exact ih hrest _ _ h
    · split
      · rename_i hidx
        obtain ⟨y, hy⟩ := (indexOf_meta_eq_zero_iff k2).mp hidx
        subst hy
        have hyx : x ≠ y := fun e => hk2.2 (by rw [e])
        apply ih hrest
        rw [substring_meta_append]
        unfold Json.setMember2
        split
        · rename_i hc
          simp only [Bool.and_eq_true] at hc
          rw [Json.getMember_setMember_self hc.1, Json.getMember_setMember_ne _ hyx]
          exact h
        · exact h
      · apply ih hrest
        rw [Json.getMember_setMember_ne _ (Ne.symm hk2.1)]
        exact h

/-- What one pair stores, given the state of `cfg` when it is processed. -/
theorem web_postConfig_loop_stores_top (k v : String) (hb : k ≠ "btnAction")
    (hk : ¬ ∃ x : String, k = "meta." ++ x) (post : List (String × String))
    (hpost : ∀ p ∈ post, p.1 ≠ k) (cfg : Json) (act : PostAction)
    (hd : cfg.canAddMember = true) :
    (web_postConfig_loop ((k, v) :: post) (cfg, act)).1.getMember k = .str (trim v) := by
  have hidx : ¬ indexOf k "meta." = 0 := fun h => hk ((indexOf_meta_eq_zero_iff k).mp h)
  simp only [web_postConfig_loop, hb, hidx, if_false]
  exact web_postConfig_loop_keeps_top k _ post hpost _ _ (Json.getMember_setMember_self hd _ _)

theorem web_postConfig_loop_stores_meta (x v : String) (post : List (String × String))
    (hpost : ∀ p ∈ post, p.1 ≠ "meta" ∧ p.1 ≠ "meta." ++ x) (cfg : Json) (act : PostAction)
    (hd : cfg.canAddMember = true) (hm : (cfg.getMember "meta").canAddMember = true) :
    ((web_postConfig_loop (("meta." ++ x, v) :: post) (cfg, act)).1.getMember "meta").getMember x
      = .str (trim v) := by
  have hidx : indexOf ("meta." ++ x) "meta." = 0 := (indexOf_meta_eq_zero_iff _).mpr ⟨x, rfl⟩
  simp only [web_postConfig_loop, meta_append_ne_btnAction, hidx, if_true, if_false,
    substring_meta_append]
  apply web_postConfig_loop_keeps_meta x _ post hpost
  rw [Json.getMember_setMember2_self hd _ _ hm, Json.getMember_setMember_self hm]

/-- The document `web_postConfig` leaves in `cfg`, whatever the callbacks do. -/
theorem web_postConfig_cfg (lib : JsonLib) (wifi : WiFiScan) (userInputs : InputGroup)
    (args : List (String × String)) (act0 : PostAction) (st : State) :
    (web_postConfig lib wifi userInputs args act0 st).cfg =
      (web_postConfig_loop args (st.cfg, act0)).1.setMember "config" (.str "done") := by
  unfold web_postConfig
  simp only
  split
  · split
    · rfl
    · simp only [web_postConfig_accepted, saveConfig]
      split <;> split <;> rfl
  · simp only [web_postConfig_accepted, saveConfig]
    split <;> split <;> rfl

/-! ## Form submission: `web_postConfig` -/

/-- C1, refuted as stated: with a callback that rejects everything, submitting
`name=x` on the document `{"meta":{}}` leaves `cfg` different from that
document: it now holds `name` and the `config` marker. -/
theorem web_postConfig_rejected_changes_cfg :
    (web_postConfig ArduinoJson.lib noNetworks ⟨[]⟩ [("name", "x")] PostAction.Save
        { freshState with cfg := minimalDoc, onConfigChanging := some (fun _ => false) }).cfg
      ≠ minimalDoc ∧
    (web_postConfig ArduinoJson.lib noNetworks ⟨[]⟩ [("name", "x")] PostAction.Save
        { freshState with cfg := minimalDoc, onConfigChanging := some (fun _ => false) }).cfg
      = .obj [("meta", .obj []), ("name", .str "x"), ("config", .str "done")] := by
  decide

/-- C1 (as amended): when the "changing" callback returns false, the document in
memory is the one built from the submission (every pair written, then the
`config` marker), the same document an accepted submission leaves; only the
file system is left as it was. -/
theorem web_postConfig_rejected_cfg (lib : JsonLib) (wifi : WiFiScan) (userInputs : InputGroup)
    (args : List (String × String)) (act0 : PostAction) (st : State) (cb : Json → Bool)
    (hcb : st.onConfigChanging = some cb)
    (hrej : cb (submittedCfg args act0 st.cfg) = false) :
    (web_postConfig lib wifi userInputs args act0 st).cfg = submittedCfg args act0 st.cfg ∧
    (web_postConfig lib wifi userInputs args act0 st).cfg =
      (web_postConfig lib wifi userInputs args act0 { st with onConfigChanging := none }).cfg ∧
    (st.cfg.canAddMember = true →
      (web_postConfig lib wifi userInputs args act0 st).cfg.getMember "config" = .str "done") ∧
    (web_postConfig lib wifi userInputs args act0 st).fs = st.fs := by
  refine ⟨web_postConfig_cfg _ _ _ _ _ _, ?_, ?_, ?_⟩
  · rw [web_postConfig_cfg, web_postConfig_cfg]
  · intro hd
    rw [web_postConfig_cfg]
    apply Json.getMember_setMember_self
    rw [web_postConfig_loop_canAddMember]
    exact hd
  · unfold submittedCfg at hrej
    unfold web_postConfig
    simp only [hcb, hrej, Bool.not_false, if_true]

/-- With a callback that rejects everything, `name=x` on `{"meta":{}}`. -/
theorem web_postConfig_rejected_cfg_witness :
    (web_postConfig ArduinoJson.lib noNetworks ⟨[]⟩ [("name", "x")] PostAction.Save
        { freshState with cfg := minimalDoc, onConfigChanging := some (fun _ => false) }).cfg
      = submittedCfg [("name", "x")] PostAction.Save minimalDoc :=
  (web_postConfig_rejected_cfg ArduinoJson.lib noNetworks ⟨[]⟩ [("name", "x")] PostAction.Save
    { freshState with cfg := minimalDoc, onConfigChanging := some (fun _ => false) }
    (fun _ => false) rfl rfl).1

/-- C2, refuted as stated: a submitted `config=x` is not stored (the marker
`done` replaces it); a later pair named `meta` wipes what `meta.a` stored; on a
document whose `meta` member is a string, or that is an array, nothing of
`meta.a=1` resp. `name=x` is stored. -/
theorem web_postConfig_not_every_pair_stored :
    (web_postConfig ArduinoJson.lib noNetworks ⟨[]⟩ [("config", "x")] PostAction.Save
        freshState).cfg.getMember "config" ≠ .str (trim "x") ∧
    ((web_postConfig ArduinoJson.lib noNetworks ⟨[]⟩ [("meta.a", "1"), ("meta", "x")]
        PostAction.Save freshState).cfg.getMember "meta").getMember "a" ≠ .str (trim "1") ∧
    ((web_postConfig ArduinoJson.lib noNetworks ⟨[]⟩ [("meta.a", "1")] PostAction.Save
        { freshState with cfg := .obj [("meta", .str "s")] }).cfg.getMember "meta").getMember "a"
      ≠ .str (trim "1") ∧
    (web_postConfig ArduinoJson.lib noNetworks ⟨[]⟩ [("name", "x")] PostAction.Save
        { freshState with cfg := .arr [] }).cfg.getMember "name" ≠ .str (trim "x") := by
  decide

/-- What `web_postConfig` stores for the pair `(k, v)` submitted between `pre`
and `post`, when no pair of `post` has the same name. -/
theorem web_postConfig_stores_pair (lib : JsonLib) (wifi : WiFiScan)
    (userInputs : InputGroup) (pre post : List (String × String)) (k v : String)
    (act0 : PostAction) (st : State) (hd : st.cfg.canAddMember = true)
    (hb : k ≠ "btnAction") (hc : k ≠ "config") (hpost : ∀ p ∈ post, p.1 ≠ k) :
    ((¬ ∃ x : String, k = "meta." ++ x) →
      (web_postConfig lib wifi userInputs (pre ++ (k, v) :: post) act0 st).cfg.getMember k
        = .str (trim v)) ∧
    (∀ x : String, k = "meta." ++ x →
      (st.cfg.getMember "meta").canAddMember = true →
      (∀ p ∈ pre ++ (k, v) :: post, p.1 ≠ "meta") →
      ((web_postConfig lib wifi userInputs (pre ++ (k, v) :: post) act0 st).cfg.getMember
        "meta").getMember x = .str (trim v)) := by
  rw [web_postConfig_cfg, web_postConfig_loop_append]
  have hpre : (web_postConfig_loop pre (st.cfg, act0)).1.canAddMember = true := by
    rw [web_postConfig_loop_canAddMember]; exact hd
  constructor
  · intro hk
    rw [Json.getMember_setMember_ne _ hc]
    exact web_postConfig_loop_stores_top k v hb hk post hpost _ _ hpre
  · intro x hx hm hmeta
    subst hx
    rw [Json.getMember_setMember_ne _ (by decide)]
    apply web_postConfig_loop_stores_meta x v post _ _ _ hpre
    · apply web_postConfig_loop_meta_canAddMember pre _ _ _ hm
      intro p hp
      exact hmeta p (List.mem_append_left _ hp)
    · intro p hp
      exact ⟨hmeta p (List.mem_append_right _ (List.mem_cons_of_mem _ hp)), hpost p hp⟩

/-- C2 (as amended): on a document that is an object (or still empty), after
`web_postConfig` every submitted pair `(k, v)` that is the last one of its name,
with `k` neither `btnAction` nor `config`, is stored trimmed: at the top level
under `k` when `k` does not start with `meta.`, and under `meta` with the
prefix removed when it does, provided the `meta` member was an object or
missing and no pair is named `meta`.  The member `btnAction` is left as it was
and `config` is `"done"`.  This holds whether or not a callback accepts. -/
theorem web_postConfig_stores_submitted (lib : JsonLib) (wifi : WiFiScan)
    (userInputs : InputGroup) (args : List (String × String)) (act0 : PostAction) (st : State)
    (hd : st.cfg.canAddMember = true) :
    (∀ (pre : List (String × String)) (k v : String) (post : List (String × String)),
      args = pre ++ (k, v) :: post → k ≠ "btnAction" → k ≠ "config" →
      (∀ p ∈ post, p.1 ≠ k) →
      ((¬ ∃ x : String, k = "meta." ++ x) →
        (web_postConfig lib wifi userInputs args act0 st).cfg.getMember k = .str (trim v)) ∧
      (∀ x : String, k = "meta." ++ x →
        (st.cfg.getMember "meta").canAddMember = true → (∀ p ∈ args, p.1 ≠ "meta") →
        ((web_postConfig lib wifi userInputs args act0 st).cfg.getMember "meta").getMember x
          = .str (trim v))) ∧
    (web_postConfig lib wifi userInputs args act0 st).cfg.getMember "btnAction"
      = st.cfg.getMember "btnAction" ∧
    (web_postConfig lib wifi userInputs args act0 st).cfg.containsKey "btnAction"
      = st.cfg.containsKey "btnAction" ∧
    (web_postConfig lib wifi userInputs args act0 st).cfg.getMember "config" = .str "done" := by
  refine ⟨?_, ?_, ?_, ?_⟩
  · intro pre k v post hargs hb hc hpost
    subst hargs
    exact web_postConfig_stores_pair lib wifi userInputs pre post k v act0 st hd hb hc hpost
  · rw [web_postConfig_cfg, Json.getMember_setMember_ne _ (by decide)]
    exact (web_postConfig_loop_btnAction _ _ _).1
  · rw [web_postConfig_cfg, Json.containsKey_setMember_ne _ (by decide)]
    exact (web_postConfig_loop_btnAction _ _ _).2
  · rw [web_postConfig_cfg]
    apply Json.getMember_setMember_self
    rw [web_postConfig_loop_canAddMember]
    exact hd

/-- Submitting `name=MyDevice` on an empty document stores `name = "MyDevice"`
and `config = "done"`. -/
theorem web_postConfig_stores_submitted_witness :
    (web_postConfig ArduinoJson.lib noNetworks ⟨[]⟩ [("name", "MyDevice")] PostAction.Save
        freshState).cfg.getMember "name" = .str "MyDevice" ∧
    (web_postConfig ArduinoJson.lib noNetworks ⟨[]⟩ [("name", "MyDevice")] PostAction.Save
        freshState).cfg.getMember "config" = .str "done" := by
  have h := web_postConfig_stores_submitted ArduinoJson.lib noNetworks ⟨[]⟩
    [("name", "MyDevice")] PostAction.Save freshState rfl
  refine ⟨?_, h.2.2.2⟩
  have h1 := (h.1 [] "name" "MyDevice" [] rfl (by decide) (by decide) (by simp)).1
    (fun hx => absurd ((indexOf_meta_eq_zero_iff "name").mpr hx) (by decide))
  rw [h1]
  decide

/-- C3: when the "changing" callback returns false, `web_postConfig` leaves
the file system as it was and adds exactly two events, the call of that
callback and the configuration page sent again: no `saveConfig`, no "changed"
callback.  When the submission is accepted (no "changing" callback, or it
returns true), the file is written once with the serialised document and the
added events are, in this order: the "changing" callback if registered, one
`saveConfig`, one "changed" callback if registered, and the response. -/
theorem web_postConfig_save_and_notify (lib : JsonLib) (wifi : WiFiScan)
    (userInputs : InputGroup) (args : List (String × String)) (act0 : PostAction) (st : State) :
    (∀ cb, st.onConfigChanging = some cb → cb (submittedCfg args act0 st.cfg) = false →
      (web_postConfig lib wifi userInputs args act0 st).fs = st.fs ∧
      (web_postConfig lib wifi userInputs args act0 st).trace = st.trace ++
        [Event.onConfigChanging,
         Event.sendConfigPage (web_sendConfigPage wifi userInputs (submittedCfg args act0 st.cfg))] ∧
      Event.saveConfig ∉ [Event.onConfigChanging,
         Event.sendConfigPage (web_sendConfigPage wifi userInputs (submittedCfg args act0 st.cfg))] ∧
      Event.onConfigChanged ∉ [Event.onConfigChanging,
         Event.sendConfigPage (web_sendConfigPage wifi userInputs (submittedCfg args act0 st.cfg))]) ∧
    ((st.onConfigChanging = none ∨
        ∃ cb, st.onConfigChanging = some cb ∧ cb (submittedCfg args act0 st.cfg) = true) →
      (web_postConfig lib wifi userInputs args act0 st).fs =
        st.fs.write (lib.serializeJson (submittedCfg args act0 st.cfg)) ∧
      (web_postConfig lib wifi userInputs args act0 st).trace = st.trace ++
        acceptedEvents wifi userInputs (web_postConfig_loop args (st.cfg, act0)).2
          st.onConfigChanging.isSome st.onConfigChanged (submittedCfg args act0 st.cfg) ∧
      (acceptedEvents wifi userInputs (web_postConfig_loop args (st.cfg, act0)).2
          st.onConfigChanging.isSome st.onConfigChanged
          (submittedCfg args act0 st.cfg)).count Event.saveConfig = 1 ∧
      (acceptedEvents wifi userInputs (web_postConfig_loop args (st.cfg, act0)).2
          st.onConfigChanging.isSome st.onConfigChanged
          (submittedCfg args act0 st.cfg)).count Event.onConfigChanged =
        (if st.onConfigChanged then 1 else 0)) := by
  constructor
  · intro cb hcb hrej
    unfold submittedCfg at hrej ⊢
    unfold web_postConfig
    simp only [hcb, hrej, Bool.not_false, if_true]
    refine ⟨trivial, ?_, by simp, by simp⟩
    simp
  · intro hacc
    have key : ∀ (act : PostAction) (hook : Option (Json → Bool)) (tr : List Event),
        (web_postConfig_accepted lib wifi userInputs act
          { cfg := submittedCfg args act0 st.cfg, fs := st.fs, onConfigChanging := hook,
            onConfigChanged := st.onConfigChanged, serial := st.serial, trace := tr }).fs =
          st.fs.write (lib.serializeJson (submittedCfg args act0 st.cfg)) ∧
        (web_postConfig_accepted lib wifi userInputs act
          { cfg := submittedCfg args act0 st.cfg, fs := st.fs, onConfigChanging := hook,
            onConfigChanged := st.onConfigChanged, serial := st.serial, trace := tr }).trace =
          tr ++ acceptedEvents wifi userInputs act false st.onConfigChanged
            (submittedCfg args act0 st.cfg) := by
      intro act hook tr
      unfold web_postConfig_accepted saveConfig acceptedEvents
      cases st.onConfigChanged <;> by_cases ha : act = PostAction.Save <;> simp [ha]
    have hcount : ∀ (act : PostAction) (b : Bool),
        (acceptedEvents wifi userInputs act b st.onConfigChanged
          (submittedCfg args act0 st.cfg)).count Event.saveConfig = 1 ∧
        (acceptedEvents wifi userInputs act b st.onConfigChanged
          (submittedCfg args act0 st.cfg)).count Event.onConfigChanged =
          (if st.onConfigChanged then 1 else 0) := by
      intro act b
      unfold acceptedEvents
      cases st.onConfigChanged <;> cases b <;> by_cases ha : act = PostAction.Save <;>
        simp [ha, List.count_cons]
    refine ⟨?_, ?_, (hcount _ _).1, (hcount _ _).2⟩
    · rcases hacc with hnone | ⟨cb, hcb, hok⟩
      · unfold web_postConfig
        simp only [hnone]
        exact (key _ _ _).1
      · unfold submittedCfg at hok
        unfold web_postConfig
        simp only [hcb, hok, Bool.not_true, Bool.false_eq_true, if_false]
        exact (key _ _ _).1
    · rcases hacc with hnone | ⟨cb, hcb, hok⟩
      · unfold web_postConfig
        simp only [hnone]
        refine (key _ _ _).2.trans ?_
        simp [acceptedEvents]
      · unfold submittedCfg at hok
        unfold web_postConfig
        simp only [hcb, hok, Bool.not_true, Bool.false_eq_true, if_false]
        refine (key _ _ _).2.trans ?_
        simp [acceptedEvents]

/-- A rejected submission leaves the file system alone; an accepted one with
`btnAction=saveandrestart` saves, notifies and redirects. -/
theorem web_postConfig_save_and_notify_witness :
    (web_postConfig ArduinoJson.lib noNetworks ⟨[]⟩ [("name", "x")] PostAction.Save
        { freshState with onConfigChanging := some (fun _ => false) }).fs = freshState.fs ∧
    (web_postConfig ArduinoJson.lib noNetworks ⟨[]⟩
        [("name", "x"), ("btnAction", "saveandrestart")] PostAction.Save
        { freshState with onConfigChanged := true }).trace =
      [Event.saveConfig, Event.onConfigChanged, Event.send 200 "text/html" redirect_html] :=
  ⟨((web_postConfig_save_and_notify ArduinoJson.lib noNetworks ⟨[]⟩ [("name", "x")]
      PostAction.Save { freshState with onConfigChanging := some (fun _ => false) }).1
      (fun _ => false) rfl rfl).1,
   ((web_postConfig_save_and_notify ArduinoJson.lib noNetworks ⟨[]⟩
      [("name", "x"), ("btnAction", "saveandrestart")] PostAction.Save
      { freshState with onConfigChanged := true }).2 (Or.inl rfl)).2.1⟩

/-! ## The concrete library reads back what it writes -/

namespace ArduinoJson

theorem unescapeChar_escapeChar {c e : Char} (h : escapeChar c = some e) :
    unescapeChar e = some c := by
  have hc : c = Char.ofNat c.toNat := (Char.ofNat_toNat c).symm
  unfold escapeChar at h
  split_ifs at h with h1 h2 h3 h4 h5 h6 h7
  all_goals simp only [Option.some.injEq] at h
  all_goals subst h
  · subst h1; decide
  · subst h2; decide
  · rw [h3] at hc; subst hc; decide
  · rw [h4] at hc; subst hc; decide
  · rw [h5] at hc; subst hc; decide
  · rw [h6] at hc; subst hc; decide
  · rw [h7] at hc; subst hc; decide

theorem escapeChar_eq_none {c : Char} (h : escapeChar c = none) :
    c ≠ quoteChar ∧ c ≠ bslashChar := by
  unfold escapeChar at h
  split_ifs at h with h1 h2
  exact ⟨h1, h2⟩

theorem readQuoted_writeChars (s rest : List Char) :
    readQuoted quoteChar (writeChars s ++ quoteChar :: rest) = some (s, rest) := by
  induction s with
  | nil =>
    simp only [writeChars, List.nil_append]
    unfold readQuoted
    simp
  | cons c cs ih =>
    unfold writeChars
    cases he : escapeChar c with
    | some e =>
      simp only [List.cons_append]
      unfold readQuoted
      have hq : bslashChar ≠ quoteChar := by decide
      simp only [hq, if_false, if_true, unescapeChar_escapeChar he, ih]
    | none =>
      obtain ⟨h1, h2⟩ := escapeChar_eq_none he
      simp only [List.cons_append]
      unfold readQuoted
      simp only [h1, h2, if_false, ih]

theorem readString_writeString (k : String) (rest : List Char) :
    readString (writeString k ++ rest) = some (k, rest) := by
  unfold writeString
  simp only [List.cons_append, List.append_assoc, List.singleton_append]
  unfold readString
  simp [readQuoted_writeChars]

theorem digitChar_spec : ∀ m, m < 10 →
    (Nat.digitChar m).isDigit = true ∧ (Nat.digitChar m).toNat - '0'.toNat = m := by
  decide

theorem digitsValue_concat (ds : List Char) (d : Char) :
    digitsValue (ds ++ [d]) = 10 * digitsValue ds + (d.toNat - '0'.toNat) := by
  simp [digitsValue, List.foldl_append]

theorem toDigitsCore_spec (fuel n : Nat) (ds : List Char) (h : n < fuel) :
    ∃ pre, Nat.toDigitsCore 10 fuel n ds = pre ++ ds ∧ pre ≠ [] ∧
      (∀ c ∈ pre, c.isDigit = true) ∧ digitsValue pre = n := by
  induction fuel generalizing n ds with
  | zero => omega
  | succ fuel ih =>
    have hd := digitChar_spec (n % 10) (Nat.mod_lt _ (by decide))
    unfold Nat.toDigitsCore
    by_cases h0 : n / 10 = 0
    · simp only [h0, if_true]
      refine ⟨[Nat.digitChar (n % 10)], rfl, by simp, ?_, ?_⟩
      · intro c hc
        rw [List.mem_singleton] at hc
        rw [hc]
        exact hd.1
      · have hn : n % 10 = n := Nat.mod_eq_of_lt (by omega)
        have := digitsValue_concat [] (Nat.digitChar (n % 10))
        simp only [List.nil_append] at this
        rw [this, hd.2, hn]
        simp [digitsValue]
    · simp only [h0, if_false]
      obtain ⟨pre, hpre, _, hdig, hval⟩ := ih (n / 10) (Nat.digitChar (n % 10) :: ds) (by omega)
      refine ⟨pre ++ [Nat.digitChar (n % 10)], ?_, by simp, ?_, ?_⟩
      · rw [hpre]
        simp
      · intro c hc
        rcases List.mem_append.mp hc with hc | hc
        · exact hdig c hc
        · rw [List.mem_singleton] at hc
          rw [hc]
          exact hd.1
      · rw [digitsValue_concat, hval, hd.2]
        omega

theorem writeNat_spec (n : Nat) :
    writeNat n ≠ [] ∧ (∀ c ∈ writeNat n, c.isDigit = true) ∧ digitsValue (writeNat n) = n := by
  obtain ⟨pre, hpre, hne, hdig, hval⟩ := toDigitsCore_spec (n + 1) n [] (by omega)
  have : writeNat n = pre := by
    unfold writeNat Nat.toDigits
    rw [hpre]
    simp
  rw [this]
  exact ⟨hne, hdig, hval⟩

theorem takeWhile_append_of_all {p : Char → Bool} (pre rest : List Char)
    (hpre : ∀ c ∈ pre, p c = true) (hrest : ∀ c r, rest = c :: r → p c = false) :
    (pre ++ rest).takeWhile p = pre ∧ (pre ++ rest).dropWhile p = rest := by
  induction pre with
  | nil =>
    cases rest with
    | nil => simp
    | cons c r => simp [List.takeWhile, List.dropWhile, hrest c r rfl]
  | cons a pre ih =>
    have ha := hpre a (List.mem_cons_self _ _)
    have := ih (fun c hc => hpre c (List.mem_cons_of_mem _ hc))
    simp [List.takeWhile, List.dropWhile, ha, this.1, this.2]

theorem isValueEnd_head {rest : List Char} (h : isValueEnd rest = true) :
    (∀ c r, rest = c :: r → c.isDigit = false) ∧
    rest.head? ≠ some '.' ∧ rest.head? ≠ some 'e' ∧ rest.head? ≠ some 'E' := by
  cases rest with
  | nil => simp
  | cons c r =>
    simp only [isValueEnd, Bool.or_eq_true, beq_iff_eq] at h
    rcases h with (h | h) | h <;> subst h <;>
      refine ⟨?_, by simp, by simp, by simp⟩ <;>
      intro c r hc <;> cases hc <;> decide

theorem readNumber_writeInt (n : Int) (rest : List Char) (h : isValueEnd rest = true) :
    readNumber (writeInt n ++ rest) = some (n, rest) := by
  obtain ⟨hdigit, h1, h2, h3⟩ := isValueEnd_head h
  cases n with
  | ofNat m =>
    obtain ⟨hne, hdig, hval⟩ := writeNat_spec m
    obtain ⟨ht, hdr⟩ := takeWhile_append_of_all (writeNat m) rest hdig hdigit
    obtain ⟨c, cs, hcs⟩ := List.exists_cons_of_ne_nil hne
    have hc : c.isDigit = true := hdig c (by rw [hcs]; exact List.mem_cons_self _ _)
    have hneg : ¬ (c = '-') := by
      intro e
      rw [e] at hc
      exact absurd hc (by decide)
    unfold readNumber writeInt
    have hhead : (writeNat m ++ rest).head? = some c := by rw [hcs]; rfl
    simp only [hhead, Option.some.injEq, hneg, decide_False, Bool.false_eq_true, if_false, ht, hdr]
    simp [hne, h1, h2, h3, hval]
  | negSucc m =>
    obtain ⟨hne, hdig, hval⟩ := writeNat_spec (m + 1)
    obtain ⟨ht, hdr⟩ := takeWhile_append_of_all (writeNat (m + 1)) rest hdig hdigit
    unfold readNumber writeInt
    simp only [List.cons_append, List.head?_cons, decide_True, if_true, List.drop_succ_cons,
      List.drop_zero, ht, hdr]
    simp [hne, h1, h2, h3, hval]
    rw [Int.negSucc_eq]
    omega

theorem isDigit_isValueStart {c : Char} (h : c.isDigit = true) :
    isValueStart c = true ∧ c ≠ Char.ofNat 123 ∧ c ≠ '[' ∧ c ≠ quoteChar ∧ c ≠ aposChar ∧
      c ≠ 't' ∧ c ≠ 'f' ∧ c ≠ 'n' ∧ c ≠ '-' := by
  have hne : ∀ x : Char, x.isDigit = false → c ≠ x := by
    intro x hx e
    rw [e, hx] at h
    exact absurd h (by decide)
  refine ⟨?_, hne _ (by decide), hne _ (by decide), hne _ (by decide), hne _ (by decide),
    hne _ (by decide), hne _ (by decide), hne _ (by decide), hne _ (by decide)⟩
  have h1 : c ≠ ']' := hne _ (by decide)
  have h2 : c ≠ Char.ofNat 125 := hne _ (by decide)
  have h3 : c ≠ ',' := hne _ (by decide)
  have hs : isspace c = false := by
    simp only [Char.isDigit, Bool.and_eq_true, decide_eq_true_eq] at h
    have h48 : 48 ≤ c.toNat := h.1
    unfold isspace
    have : ¬ c.toNat = 32 := by omega
    have : ¬ c.toNat ≤ 13 := by omega
    simp [*]
  simp [isValueStart, hs, h1, h2, h3]

theorem writeInt_head (n : Int) :
    ∃ c t, writeInt n = c :: t ∧ isValueStart c = true ∧ c ≠ Char.ofNat 123 ∧ c ≠ '[' ∧
      c ≠ quoteChar ∧ c ≠ aposChar ∧ c ≠ 't' ∧ c ≠ 'f' ∧ c ≠ 'n' := by
  cases n with
  | ofNat m =>
    obtain ⟨hne, hdig, _⟩ := writeNat_spec m
    obtain ⟨c, cs, hcs⟩ := List.exists_cons_of_ne_nil hne
    have hc : c.isDigit = true := hdig c (by rw [hcs]; exact List.mem_cons_self _ _)
    obtain ⟨a1, a2, a3, a4, a5, a6, a7, a8, _⟩ := isDigit_isValueStart hc
    exact ⟨c, cs, by simp [writeInt, hcs], a1, a2, a3, a4, a5, a6, a7, a8⟩
  | negSucc m =>
    exact ⟨'-', writeNat (m + 1), rfl, by decide, by decide, by decide, by decide, by decide,
      by decide, by decide, by decide⟩

theorem writeValue_head (d : Json) :
    ∃ c t, writeValue d = c :: t ∧ isValueStart c = true := by
  cases d with
  | null => exact ⟨'n', _, rfl, by decide⟩
  | bool b => cases b <;> exact ⟨_, _, rfl, by decide⟩
  | num n =>
    obtain ⟨c, t, h, hc, _⟩ := writeInt_head n
    exact ⟨c, t, by simp [writeValue, h], hc⟩
  | str s => exact ⟨quoteChar, writeChars s.data ++ [quoteChar], rfl, by decide⟩
  | arr xs => exact ⟨'[', writeElements xs ++ [']'], by rw [writeValue]; rfl, by decide⟩
  | obj kvs =>
    exact ⟨Char.ofNat 123, writeMembers kvs ++ [Char.ofNat 125], by rw [writeValue]; rfl, by decide⟩

theorem skipSpaces_cons {c : Char} (t : List Char) (h : isValueStart c = true) :
    skipSpaces (c :: t) = c :: t := by
  have hs : isspace c = false := by
    simp only [isValueStart, Bool.and_eq_true, Bool.not_eq_true'] at h
    exact h.1.1.1
  simp [skipSpaces, List.dropWhile, hs]

theorem skipSpaces_end (c : Char) (t : List Char) (h : isspace c = false) :
    skipSpaces (c :: t) = c :: t := by
  simp [skipSpaces, List.dropWhile, h]

theorem isValueStart_ne {c : Char} (h : isValueStart c = true) :
    c ≠ ']' ∧ c ≠ Char.ofNat 125 ∧ c ≠ ',' := by
  simp only [isValueStart, Bool.and_eq_true, Bool.not_eq_true', bne_iff_ne, ne_eq] at h
  exact ⟨h.1.1.2, h.1.2, h.2⟩

theorem writeElements_cons_cons (x y : Json) (xs : List Json) :
    writeElements (x :: y :: xs) = writeValue x ++ ',' :: writeElements (y :: xs) := by
  rw [writeElements]

theorem writeMembers_cons_cons (k : String) (v : Json) (m : String × Json)
    (kvs : List (String × Json)) :
    writeMembers ((k, v) :: m :: kvs) =
      writeString k ++ ':' :: writeValue v ++ ',' :: writeMembers (m :: kvs) := by
  rw [writeMembers]

theorem writeString_eq (k : String) (rest : List Char) :
    writeString k ++ rest = quoteChar :: (writeChars k.data ++ quoteChar :: rest) := by
  simp [writeString]

theorem readValue_arr (f : Nat) (c2 : Char) (t : List Char) (h : isspace c2 = false) :
    readValue (f + 1) ('[' :: c2 :: t) =
      if c2 = ']' then some (.arr [], t)
      else (readElements f (c2 :: t)).map (fun p => (.arr p.1, p.2)) := by
  unfold readValue
  rw [skipSpaces_cons _ (by decide)]
  have e1 : ('[' : Char) ≠ Char.ofNat 123 := by decide
  simp only [e1, if_false, if_true, skipSpaces_end _ _ h]

theorem readValue_obj (f : Nat) (c2 : Char) (t : List Char) (h : isspace c2 = false) :
    readValue (f + 1) (Char.ofNat 123 :: c2 :: t) =
      if c2 = Char.ofNat 125 then some (.obj [], t)
      else (readMembers f (c2 :: t)).map (fun p => (.obj p.1, p.2)) := by
  unfold readValue
  rw [skipSpaces_cons _ (by decide)]
  simp only [if_true, skipSpaces_end _ _ h]

theorem isValueStart_isspace {c : Char} (h : isValueStart c = true) : isspace c = false := by
  simp only [isValueStart, Bool.and_eq_true, Bool.not_eq_true'] at h
  exact h.1.1.1

mutual
theorem readValue_writeValue : ∀ (d : Json) (fuel : Nat) (rest : List Char),
    (writeValue d).length ≤ fuel → isValueEnd rest = true →
    readValue fuel (writeValue d ++ rest) = some (d, rest)
  | .null, fuel, rest, hf, _ => by
    have hlen : (writeValue .null).length = 4 := rfl
    obtain ⟨f, rfl⟩ : ∃ f, fuel = f + 1 := ⟨fuel - 1, by omega⟩
    have hw : writeValue .null ++ rest = 'n' :: 'u' :: 'l' :: 'l' :: rest := rfl
    rw [hw]
    unfold readValue
    rw [skipSpaces_cons _ (by decide)]
    simp
    decide
  | .bool true, fuel, rest, hf, _ => by
    have hlen : (writeValue (.bool true)).length = 4 := rfl
    obtain ⟨f, rfl⟩ : ∃ f, fuel = f + 1 := ⟨fuel - 1, by omega⟩
    have hw : writeValue (.bool true) ++ rest = 't' :: 'r' :: 'u' :: 'e' :: rest := rfl
    rw [hw]
    unfold readValue
    rw [skipSpaces_cons _ (by decide)]
    simp
    decide
  | .bool false, fuel, rest, hf, _ => by
    have hlen : (writeValue (.bool false)).length = 5 := rfl
    obtain ⟨f, rfl⟩ : ∃ f, fuel = f + 1 := ⟨fuel - 1, by omega⟩
    have hw : writeValue (.bool false) ++ rest = 'f' :: 'a' :: 'l' :: 's' :: 'e' :: rest := rfl
    rw [hw]
    unfold readValue
    rw [skipSpaces_cons _ (by decide)]
    simp
    decide
  | .num n, fuel, rest, hf, hr => by
    obtain ⟨c, t, hc, hstart, h1, h2, h3, h4, h5, h6, h7⟩ := writeInt_head n
    have hlen : 1 ≤ (writeValue (.num n)).length := by simp [writeValue, hc]
    obtain ⟨f, rfl⟩ : ∃ f, fuel = f + 1 := ⟨fuel - 1, by omega⟩
    have hw : writeValue (.num n) ++ rest = c :: (t ++ rest) := by simp [writeValue, hc]
    have hnum := readNumber_writeInt n rest hr
    rw [hc, List.cons_append] at hnum
    rw [hw]
    unfold readValue
    rw [skipSpaces_cons _ hstart]
    simp [h1, h2, h3, h4, hnum, List.isPrefixOf, Ne.symm h5, Ne.symm h6, Ne.symm h7]
  | .str s, fuel, rest, hf, _ => by
    have hlen : 1 ≤ (writeValue (.str s)).length := by simp [writeValue, writeString]
    obtain ⟨f, rfl⟩ : ∃ f, fuel = f + 1 := ⟨fuel - 1, by omega⟩
    have hw : writeValue (.str s) ++ rest = quoteChar :: (writeChars s.data ++ quoteChar :: rest) := by
      rw [writeValue, writeString_eq]
    rw [hw]
    unfold readValue
    rw [skipSpaces_cons _ (by decide)]
    have e1 : quoteChar ≠ Char.ofNat 123 := by decide
    have e2 : quoteChar ≠ '[' := by decide
    simp [e1, e2, readQuoted_writeChars]
  | .arr [], fuel, rest, hf, _ => by
    have hlen : (writeValue (.arr [])).length = 2 := rfl
    obtain ⟨f, rfl⟩ : ∃ f, fuel = f + 1 := ⟨fuel - 1, by omega⟩
    have hw : writeValue (.arr []) ++ rest = '[' :: ']' :: rest := rfl
    rw [hw, readValue_arr _ _ _ (by decide)]
    simp
  | .arr (x :: xs), fuel, rest, hf, _ => by
    have hw : writeValue (.arr (x :: xs)) ++ rest =
        '[' :: (writeElements (x :: xs) ++ ']' :: rest) := by
      rw [writeValue]; simp
    have hlen : (writeValue (.arr (x :: xs))).length = (writeElements (x :: xs)).length + 2 := by
      rw [writeValue]; simp
    obtain ⟨f, rfl⟩ : ∃ f, fuel = f + 1 := ⟨fuel - 1, by omega⟩
    have ih := readElements_writeElements (x :: xs) f rest (by simp) (by omega)
    obtain ⟨c, t, hct, hstart⟩ : ∃ c t, writeElements (x :: xs) = c :: t ∧ isValueStart c = true := by
      obtain ⟨c, t, h1, h2⟩ := writeValue_head x
      cases xs with
      | nil => exact ⟨c, t, by rw [writeElements, h1], h2⟩
      | cons y ys => exact ⟨c, _, by rw [writeElements_cons_cons, h1]; rfl, h2⟩
    rw [hw]
    rw [hct, List.cons_append] at ih ⊢
    rw [readValue_arr _ _ _ (isValueStart_isspace hstart), ih]
    have hne := (isValueStart_ne hstart).1
    simp [hne]
  | .obj [], fuel, rest, hf, _ => by
    have hlen : (writeValue (.obj [])).length = 2 := rfl
    obtain ⟨f, rfl⟩ : ∃ f, fuel = f + 1 := ⟨fuel - 1, by omega⟩
    have hw : writeValue (.obj []) ++ rest = Char.ofNat 123 :: Char.ofNat 125 :: rest := rfl
    rw [hw, readValue_obj _ _ _ (by decide)]
    simp
  | .obj ((k, v) :: kvs), fuel, rest, hf, _ => by
    have hw : writeValue (.obj ((k, v) :: kvs)) ++ rest =
        Char.ofNat 123 :: (writeMembers ((k, v) :: kvs) ++ Char.ofNat 125 :: rest) := by
      rw [writeValue]; simp
    have hlen : (writeValue (.obj ((k, v) :: kvs))).length =
        (writeMembers ((k, v) :: kvs)).length + 2 := by
      rw [writeValue]; simp
    obtain ⟨f, rfl⟩ : ∃ f, fuel = f + 1 := ⟨fuel - 1, by omega⟩
    have ih := readMembers_writeMembers ((k, v) :: kvs) f rest (by simp) (by omega)
    obtain ⟨t, hct⟩ : ∃ t, writeMembers ((k, v) :: kvs) = quoteChar :: t := by
      cases kvs with
      | nil => exact ⟨_, by rw [writeMembers, writeString_eq]⟩
      | cons m ms =>
        exact ⟨_, by rw [writeMembers_cons_cons, List.append_assoc, writeString_eq]⟩
    rw [hw]
    rw [hct, List.cons_append] at ih ⊢
    rw [readValue_obj _ _ _ (by decide), ih]
    have e1 : quoteChar ≠ Char.ofNat 125 := by decide
    simp [e1]
theorem readElements_writeElements : ∀ (xs : List Json) (fuel : Nat) (rest : List Char),
    xs ≠ [] → (writeElements xs).length < fuel →
    readElements fuel (writeElements xs ++ ']' :: rest) = some (xs, rest)
  | [], _, _, hne, _ => absurd rfl hne
  | [x], fuel, rest, _, hf => by
    obtain ⟨f, rfl⟩ : ∃ f, fuel = f + 1 := ⟨fuel - 1, by omega⟩
    have hw : writeElements [x] = writeValue x := by rw [writeElements]
    rw [hw] at hf ⊢
    have ih := readValue_writeValue x f (']' :: rest) (by omega) (by simp [isValueEnd])
    unfold readElements
    rw [ih]
    simp only
    rw [skipSpaces_end _ _ (by decide)]
    simp
  | x :: y :: xs, fuel, rest, _, hf => by
    obtain ⟨f, rfl⟩ : ∃ f, fuel = f + 1 := ⟨fuel - 1, by omega⟩
    rw [writeElements_cons_cons] at hf ⊢
    simp only [List.length_append, List.length_cons] at hf
    have ih1 := readValue_writeValue x f (',' :: (writeElements (y :: xs) ++ ']' :: rest))
      (by omega) (by simp [isValueEnd])
    have ih2 := readElements_writeElements (y :: xs) f rest (by simp) (by omega)
    unfold readElements
    simp only [List.append_assoc, List.cons_append]
    rw [ih1]
    simp only
    rw [skipSpaces_end _ _ (by decide)]
    have e1 : ',' ≠ ']' := by decide
    simp [e1, ih2]
theorem readMembers_writeMembers : ∀ (kvs : List (String × Json)) (fuel : Nat)
    (rest : List Char), kvs ≠ [] → (writeMembers kvs).length < fuel →
    readMembers fuel (writeMembers kvs ++ Char.ofNat 125 :: rest) = some (kvs, rest)
  | [], _, _, hne, _ => absurd rfl hne
  | [(k, v)], fuel, rest, _, hf => by
    obtain ⟨f, rfl⟩ : ∃ f, fuel = f + 1 := ⟨fuel - 1, by omega⟩
    have hw : writeMembers [(k, v)] = writeString k ++ ':' :: writeValue v := by rw [writeMembers]
    rw [hw] at hf ⊢
    simp only [List.length_append, List.length_cons] at hf
    have ih := readValue_writeValue v f (Char.ofNat 125 :: rest) (by omega) (by simp [isValueEnd])
    unfold readMembers
    simp only [List.append_assoc, List.cons_append]
    rw [writeString_eq, skipSpaces_cons _ (by decide), ← writeString_eq, readString_writeString]
    simp only
    rw [skipSpaces_end _ _ (by decide)]
    simp only [if_true]
    rw [ih]
    simp only
    rw [skipSpaces_end _ _ (by decide)]
    simp
  | (k, v) :: m :: kvs, fuel, rest, _, hf => by
    obtain ⟨f, rfl⟩ : ∃ f, fuel = f + 1 := ⟨fuel - 1, by omega⟩
    rw [writeMembers_cons_cons] at hf ⊢
    simp only [List.length_append, List.length_cons] at hf
    have ih1 := readValue_writeValue v f
      (',' :: (writeMembers (m :: kvs) ++ Char.ofNat 125 :: rest)) (by omega) (by simp [isValueEnd])
    have ih2 := readMembers_writeMembers (m :: kvs) f rest (by simp) (by omega)
    unfold readMembers
    simp only [List.append_assoc, List.cons_append]
    rw [writeString_eq, skipSpaces_cons _ (by decide), ← writeString_eq, readString_writeString]
    simp only
    rw [skipSpaces_end _ _ (by decide)]
    simp only [if_true]
    rw [ih1]
    simp only
    rw [skipSpaces_end _ _ (by decide)]
    have e1 : ',' ≠ Char.ofNat 125 := by decide
    simp [e1, ih2]
end

end ArduinoJson

/-! ## Masking -/

/-- C10, refuted as stated: a stored file `{}` parses, and `loadConfig` then
leaves the empty object in `cfg`, which has no `meta` member. -/
theorem loadConfig_without_meta :
    (loadConfig ArduinoJson.lib
        { freshState with fs := { mounted := true, mountable := true,
                                  cfgFile := some "\x7b\x7d" } }).cfg = .obj [] ∧
    (loadConfig ArduinoJson.lib
        { freshState with fs := { mounted := true, mountable := true,
                                  cfgFile := some "\x7b\x7d" } }).cfg.containsKey "meta"
      = false := by
  decide

/-- C10 (as amended): `loadConfig` always ends with a document in `cfg`.  With
a library that reads `"{meta:{}}"` as the document with an empty `meta`: when
the file system cannot be mounted, the file is missing, or its text does not
parse, `cfg` is exactly that minimal document, which has a `meta` object and
is not marked configured; when the file parses, `cfg` is the parsed document
as it is, so it has a `meta` member exactly when the file has one. -/
theorem loadConfig_result (lib : JsonLib) (st : State)
    (hmin : (lib.deserializeJson minimalJson).doc = minimalDoc) :
    (st.fs.canMount = false → (loadConfig lib st).cfg = minimalDoc) ∧
    (st.fs.cfgFile = none → (loadConfig lib st).cfg = minimalDoc) ∧
    (∀ content, st.fs.canMount = true → st.fs.cfgFile = some content →
      (lib.deserializeJson content).error = true → (loadConfig lib st).cfg = minimalDoc) ∧
    (∀ content, st.fs.canMount = true → st.fs.cfgFile = some content →
      (lib.deserializeJson content).error = false →
      (loadConfig lib st).cfg = (lib.deserializeJson content).doc) ∧
    minimalDoc.getMember "meta" = .obj [] ∧
    minimalDoc.containsKey "config" = false ∧
    web_sendConfigPage_cfgOK minimalDoc = some false := by
  refine ⟨?_, ?_, ?_, ?_, by decide, by decide, by decide⟩
  · intro hc
    simp only [LittleFS.canMount, Bool.or_eq_false_iff] at hc
    unfold loadConfig
    simp [LittleFS.begin, LittleFS.exists, LittleFS.format, hc.1, hc.2, hmin]
  · intro hf
    unfold loadConfig
    cases h1 : st.fs.mounted <;> cases h2 : st.fs.mountable <;>
      simp [LittleFS.begin, LittleFS.exists, LittleFS.format, h1, h2, hf, hmin]
  · intro content hc hf herr
    unfold loadConfig
    cases h1 : st.fs.mounted <;> cases h2 : st.fs.mountable <;>
      simp [LittleFS.canMount, h1, h2] at hc <;>
      simp [LittleFS.begin, LittleFS.exists, LittleFS.readString, h1, h2, hf, herr, hmin]
  · intro content hc hf herr
    unfold loadConfig
    cases h1 : st.fs.mounted <;> cases h2 : st.fs.mountable <;>
      simp [LittleFS.canMount, h1, h2] at hc <;>
      simp [LittleFS.begin, LittleFS.exists, LittleFS.readString, h1, h2, hf, herr]

/-- A file that is not JSON loads as the minimal document. -/
theorem loadConfig_result_witness :
    (loadConfig ArduinoJson.lib
        { freshState with fs := { mounted := false, mountable := true,
                                  cfgFile := some "not json" } }).cfg = minimalDoc :=
  (loadConfig_result ArduinoJson.lib
      { freshState with fs := { mounted := false, mountable := true,
                                cfgFile := some "not json" } } (by decide)).2.2.1
    "not json" rfl rfl (by decide)

/-! ## The form renderer -/

theorem strlen_pos_iff (s : String) : strlen s > 0 ↔ s ≠ "" := by
  unfold strlen
  constructor
  · intro h e
    subst e
    simp at h
  · intro h
    by_contra h0
    have h1 : s.data.length = 0 := by
      have : s.length = s.data.length := rfl
      omega
    exact h (String.ext (List.length_eq_zero.mp h1))

theorem html_beginGroup_append (html : String) (label : CStr) :
    html_beginGroup html label = html ++ html_beginGroup "" label := by
  unfold html_beginGroup
  cases label with
  | none => simp
  | some l =>
    simp only
    split <;> simp [String.append_assoc]

theorem html_endGroup_append (html : String) :
    html_endGroup html = html ++ html_endGroup "" := by
  simp [html_endGroup]

theorem html_appendOptions_append (wifi : WiFiScan) (fieldValue : CStr) (html : String)
    (l : List Nat) :
    html_appendOptions wifi fieldValue html l = html ++ html_appendOptions wifi fieldValue "" l := by
  induction l generalizing html with
  | nil => simp [html_appendOptions]
  | cons i rest ih =>
    simp only [html_appendOptions]
    rw [ih]
    conv_rhs => rw [ih]
    split <;> simp [String.append_assoc]

theorem html_appendInput_append (wifi : WiFiScan) (html type : String)
    (fieldName placeholderText fieldValue : CStr) (checked : Bool) :
    html_appendInput wifi html type fieldName placeholderText fieldValue checked =
      html ++ html_appendInput wifi "" type fieldName placeholderText fieldValue checked := by
  unfold html_appendInput
  simp only
  split
  · cases fieldValue <;> cases placeholderText <;> simp only
    all_goals repeat' split
    all_goals simp only [String.append_assoc, String.empty_append]
  · split
    · rw [html_appendOptions_append]
      conv_rhs => rw [html_appendOptions_append]
      cases placeholderText <;> simp only
      all_goals repeat' split
      all_goals simp only [String.append_assoc, String.empty_append]
    · cases placeholderText <;> simp only
      all_goals repeat' split
      all_goals simp only [String.append_assoc, String.empty_append]

/-- When the loop finishes, it has appended `formBody` to `html`. -/
theorem web_sendConfigPage_loop_eq (wifi : WiFiScan) (cfg : Json) (cfgOK : Bool)
    (fields : List InputField) (groupname : CStr) (html : String) (r : CStr × String)
    (h : web_sendConfigPage_loop wifi cfg cfgOK fields (groupname, html) = some r) :
    r.2 = html ++ formBody wifi cfg cfgOK groupname fields := by
  induction fields generalizing groupname html with
  | nil =>
    simp only [web_sendConfigPage_loop, Option.some.injEq] at h
    subst h
    simp [formBody]
  | cons f rest ih =>
    unfold web_sendConfigPage_loop at h
    cases hg : groupname with
    | none =>
      subst hg
      simp only [Option.isSome_none, Bool.false_eq_true, if_false, if_true] at h
      have := ih _ _ h
      rw [this, html_appendInput_append, html_beginGroup_append]
      simp only [formBody, groupBoundary, fieldMarkup, fieldValue, String.append_assoc]
    | some x =>
      subst hg
      cases hf : f.inputGroup with
      | none => simp [hf, strcmpEqZero] at h
      | some y =>
        simp only [hf, strcmpEqZero, Option.map_some'] at h
        by_cases hxy : x = y
        · subst hxy
          simp only [decide_True, Bool.not_true, Bool.false_eq_true, if_false] at h
          have := ih _ _ h
          rw [this, html_appendInput_append]
          simp only [formBody, groupBoundary, fieldMarkup, fieldValue, hf, if_true,
            String.append_assoc, String.empty_append]
        · simp only [hxy, decide_False, Bool.not_false, if_true, Option.isSome_some] at h
          have := ih _ _ h
          rw [this, html_appendInput_append, html_beginGroup_append, html_endGroup_append]
          have hne : ¬ (some x = some y) := fun e => hxy (Option.some.inj e)
          simp only [formBody, groupBoundary, fieldMarkup, fieldValue, hf, hne, if_false,
            String.append_assoc]

/-- With a group name on every descriptor the loop finishes. -/
theorem web_sendConfigPage_loop_isSome (wifi : WiFiScan) (cfg : Json) (cfgOK : Bool)
    (fields : List InputField) (hgroups : ∀ f ∈ fields, f.inputGroup ≠ none)
    (groupname : CStr) (html : String) :
    (web_sendConfigPage_loop wifi cfg cfgOK fields (groupname, html)).isSome = true := by
  induction fields generalizing groupname html with
  | nil => simp [web_sendConfigPage_loop]
  | cons f rest ih =>
    have hrest : ∀ f ∈ rest, f.inputGroup ≠ none := fun g hg => hgroups g (List.mem_cons_of_mem _ hg)
    obtain ⟨y, hy⟩ := Option.ne_none_iff_exists'.mp (hgroups f (List.mem_cons_self _ _))
    unfold web_sendConfigPage_loop
    cases groupname with
    | none => exact ih hrest _ _
    | some x =>
      simp only [hy, strcmpEqZero, Option.map_some']
      exact ih hrest _ _

/-- The flag `cfgOK` on a document whose `config` member, if any, is a string. -/
theorem web_sendConfigPage_cfgOK_eq (cfg : Json)
    (hcfg : cfg.containsKey "config" = true → ∃ s, cfg.getMember "config" = .str s) :
    web_sendConfigPage_cfgOK cfg = some (markedConfigured cfg) := by
  unfold web_sendConfigPage_cfgOK markedConfigured
  cases hc : cfg.containsKey "config" with
  | false => simp
  | true =>
    obtain ⟨s, hs⟩ := hcfg hc
    simp [hs, Json.asCStr, strcmpEqZero]

/-- Whenever `web_sendConfigPage` builds a page, it is the shell around the form
body. -/
theorem web_sendConfigPage_eq (wifi : WiFiScan) (fields : List InputField) (cfg : Json)
    (page : String) (h : web_sendConfigPage wifi ⟨fields⟩ cfg = some page) :
    ∃ cfgOK, web_sendConfigPage_cfgOK cfg = some cfgOK ∧
      page = html_begin ++ formBody wifi cfg cfgOK none fields ++ formClose fields ++ html_end := by
  unfold web_sendConfigPage at h
  simp only [String.empty_append] at h
  cases hok : web_sendConfigPage_cfgOK cfg with
  | none => simp [hok] at h
  | some cfgOK =>
    refine ⟨cfgOK, rfl, ?_⟩
    simp only [hok] at h
    by_cases hlen : fields.length > 0
    · simp only [hlen, if_true] at h
      cases hl : web_sendConfigPage_loop wifi cfg cfgOK fields (none, html_begin) with
      | none => simp [hl] at h
      | some r =>
        simp only [hl, Option.some.injEq] at h
        rw [← h, html_endGroup_append, web_sendConfigPage_loop_eq _ _ _ _ _ _ _ hl]
        simp only [formClose, hlen, if_true, String.append_assoc]
    · simp only [hlen, if_false, Option.some.injEq] at h
      have hnil : fields = [] := List.length_eq_zero.mp (by omega)
      subst hnil
      rw [← h]
      simp [formBody, formClose]

/-- With a group name on every descriptor and a well-typed `config` marker the
page is built. -/
theorem web_sendConfigPage_wellFormed (wifi : WiFiScan) (fields : List InputField) (cfg : Json)
    (hgroups : ∀ f ∈ fields, f.inputGroup ≠ none)
    (hcfg : cfg.containsKey "config" = true → ∃ s, cfg.getMember "config" = .str s) :
    web_sendConfigPage wifi ⟨fields⟩ cfg =
      some (html_begin ++ formBody wifi cfg (markedConfigured cfg) none fields ++
        formClose fields ++ html_end) := by
  have hsome : (web_sendConfigPage wifi ⟨fields⟩ cfg).isSome = true := by
    unfold web_sendConfigPage
    simp only [web_sendConfigPage_cfgOK_eq cfg hcfg]
    split
    · have := web_sendConfigPage_loop_isSome wifi cfg (markedConfigured cfg) fields hgroups
        none ("" ++ html_begin)
      cases hl : web_sendConfigPage_loop wifi cfg (markedConfigured cfg) fields
        (none, "" ++ html_begin) with
      | none =>
        rw [String.empty_append] at hl
        simp [hl] at this
      | some r => rfl
    · rfl
  obtain ⟨page, hpage⟩ := Option.isSome_iff_exists.mp hsome
  obtain ⟨cfgOK, hok, heq⟩ := web_sendConfigPage_eq wifi fields cfg page hpage
  rw [web_sendConfigPage_cfgOK_eq cfg hcfg, Option.some.injEq] at hok
  rw [hpage, heq, hok]

theorem groupAfter_cons (groupname : CStr) (f : InputField) (rest : List InputField) :
    groupAfter groupname (f :: rest) = groupAfter f.inputGroup rest := by
  cases rest with
  | nil => simp [groupAfter]
  | cons g rest2 =>
    obtain ⟨l, hl⟩ : ∃ l, (g :: rest2).getLast? = some l :=
      ⟨_, List.getLast?_eq_getLast _ (by simp)⟩
    simp [groupAfter, List.getLast?_cons_cons, hl]

theorem formBody_append (wifi : WiFiScan) (cfg : Json) (cfgOK : Bool) (groupname : CStr)
    (pre post : List InputField) :
    formBody wifi cfg cfgOK groupname (pre ++ post) =
      formBody wifi cfg cfgOK groupname pre ++
        formBody wifi cfg cfgOK (groupAfter groupname pre) post := by
  induction pre generalizing groupname with
  | nil => simp [formBody, groupAfter]
  | cons f rest ih =>
    rw [List.cons_append]
    simp only [formBody]
    rw [ih f.inputGroup, groupAfter_cons]
    simp only [String.append_assoc]

theorem web_sendConfigPage_cfgOK_some (cfg : Json) (cfgOK : Bool)
    (h : web_sendConfigPage_cfgOK cfg = some cfgOK) : cfgOK = markedConfigured cfg := by
  unfold web_sendConfigPage_cfgOK at h
  unfold markedConfigured
  cases hc : cfg.containsKey "config" with
  | false =>
    simp [hc] at h
    simp [h]
  | true =>
    simp only [hc, if_true] at h
    cases hm : cfg.getMember "config" <;> simp [hm, Json.asCStr, strcmpEqZero] at h
    rename_i s
    simp [← h]

/-- A type that is none of `checkbox`, `radio`, `ssid` gives the textual input. -/
theorem html_appendInput_textual (wifi : WiFiScan) (type : String)
    (fieldName placeholderText fieldValue : CStr) (checked : Bool)
    (h1 : type ≠ "checkbox") (h2 : type ≠ "radio") (h3 : type ≠ "ssid") :
    html_appendInput wifi "" type fieldName placeholderText fieldValue checked =
      textInputMarkup type fieldName placeholderText fieldValue := by
  unfold html_appendInput textInputMarkup valueAttr labelFor
  simp only [h1, h2, h3, decide_False, Bool.not_false, Bool.and_self, if_true]
  cases fieldValue <;> cases placeholderText <;> simp only [strlen_pos_iff, ne_eq, ite_not]
  all_goals repeat' split
  all_goals simp only [String.append_assoc, String.empty_append, String.append_empty]

/-! ## Groups -/

theorem html_beginGroup_eq (label : CStr) :
    html_beginGroup "" label =
      "<fieldset style='margin-top:1em; padding:0.5em; border:1px solid #ccc;'>" ++
        legendMarkup label := by
  unfold html_beginGroup legendMarkup
  cases label <;> simp only [strlen_pos_iff, ne_eq, ite_not]
  all_goals repeat' split
  all_goals simp only [String.append_assoc, String.empty_append, String.append_empty]

theorem groupRuns_cons_head (f : InputField) (fs : List InputField) :
    ∃ r rs, groupRuns (f :: fs) = (f :: r) :: rs := by
  simp only [groupRuns]
  split
  · split
    · exact ⟨_, _, rfl⟩
    · exact ⟨_, _, rfl⟩
  · exact ⟨_, _, rfl⟩

/-- The runs partition the sequence: concatenated they give it back, none is
empty, a run has one group name, and neighbouring runs have different ones. -/
theorem groupRuns_spec (fields : List InputField) :
    (groupRuns fields).flatten = fields ∧
    (∀ r ∈ groupRuns fields, r ≠ []) ∧
    (∀ r ∈ groupRuns fields, ∀ f ∈ r, ∀ g ∈ r, f.inputGroup = g.inputGroup) ∧
    List.Chain' (fun r1 r2 => ∀ f ∈ r1, ∀ g ∈ r2, f.inputGroup ≠ g.inputGroup)
      (groupRuns fields) := by
  induction fields with
  | nil => simp [groupRuns]
  | cons f fs ih =>
    obtain ⟨hjoin, hne, hsame, hchain⟩ := ih
    cases fs with
    | nil => simp [groupRuns]
    | cons f1 fs1 =>
      obtain ⟨r, rs, hr⟩ := groupRuns_cons_head f1 fs1
      rw [hr] at hjoin hne hsame hchain
      have hsame1 : ∀ g ∈ f1 :: r, g.inputGroup = f1.inputGroup :=
        fun g hg => hsame _ (List.mem_cons_self _ _) g hg f1 (List.mem_cons_self _ _)
      have hunfold : groupRuns (f :: f1 :: fs1) =
          if f.inputGroup = f1.inputGroup then (f :: f1 :: r) :: rs
          else [f] :: (f1 :: r) :: rs := by
        conv_lhs => unfold groupRuns
        rw [hr]
      rw [hunfold]
      by_cases hg : f.inputGroup = f1.inputGroup
      · simp only [hg, if_true]
        refine ⟨?_, ?_, ?_, ?_⟩
        · simpa using hjoin
        · intro x hx
          rcases List.mem_cons.mp hx with rfl | hx
          · simp
          · exact hne x (List.mem_cons_of_mem _ hx)
        · intro x hx
          rcases List.mem_cons.mp hx with rfl | hx
          · have hall : ∀ a ∈ f :: f1 :: r, a.inputGroup = f1.inputGroup := by
              intro a ha
              rcases List.mem_cons.mp ha with rfl | ha
              · exact hg
              · exact hsame1 a ha
            intro a ha b hb
            rw [hall a ha, hall b hb]
          · exact hsame x (List.mem_cons_of_mem _ hx)
        · cases rs with
          | nil => exact List.chain'_singleton _
          | cons r2 rs2 =>
            rw [List.chain'_cons] at hchain ⊢
            refine ⟨?_, hchain.2⟩
            intro a ha b hb
            rcases List.mem_cons.mp ha with rfl | ha
            · rw [hg]
              exact hchain.1 f1 (List.mem_cons_self _ _) b hb
            · exact hchain.1 a ha b hb
      · simp only [hg, if_false]
        refine ⟨?_, ?_, ?_, ?_⟩
        · simpa using hjoin
        · intro x hx
          rcases List.mem_cons.mp hx with rfl | hx
          · simp
          · exact hne x hx
        · intro x hx
          rcases List.mem_cons.mp hx with rfl | hx
          · intro a ha b hb
            simp only [List.mem_singleton] at ha hb
            rw [ha, hb]
          · exact hsame x hx
        · rw [List.chain'_cons]
          refine ⟨?_, hchain⟩
          intro a ha b hb
          simp only [List.mem_singleton] at ha
          rw [ha, hsame1 b hb]
          exact hg

/-- Inside an open container of `f0`, what the loop still appends for `fs`,
with the final closing tag, is the rest of the run of `f0`, its closing tag, and
the containers of the runs after it. -/
theorem formBody_runs (wifi : WiFiScan) (cfg : Json) (cfgOK : Bool) (fs : List InputField)
    (hgroups : ∀ f ∈ fs, f.inputGroup ≠ none) (f0 : InputField)
    (h0 : f0.inputGroup ≠ none) :
    ∃ r rs, groupRuns (f0 :: fs) = (f0 :: r) :: rs ∧
      formBody wifi cfg cfgOK f0.inputGroup fs ++ html_endGroup "" =
        joinAll (r.map (fieldMarkup wifi cfg cfgOK)) ++ "</fieldset>" ++
          joinAll (rs.map (renderRun wifi cfg cfgOK)) := by
  induction fs generalizing f0 with
  | nil =>
    refine ⟨[], [], by simp [groupRuns], ?_⟩
    simp [formBody, joinAll, html_endGroup]
  | cons f1 fs1 ih =>
    have h1 : f1.inputGroup ≠ none := hgroups f1 (List.mem_cons_self _ _)
    obtain ⟨r1, rs1, hr1, hbody⟩ :=
      ih (fun f hf => hgroups f (List.mem_cons_of_mem _ hf)) f1 h1
    have hunfold : groupRuns (f0 :: f1 :: fs1) =
        if f0.inputGroup = f1.inputGroup then (f0 :: f1 :: r1) :: rs1
        else [f0] :: (f1 :: r1) :: rs1 := by
      conv_lhs => unfold groupRuns
      rw [hr1]
    obtain ⟨x, hx⟩ := Option.ne_none_iff_exists'.mp h0
    by_cases hg : f0.inputGroup = f1.inputGroup
    · refine ⟨f1 :: r1, rs1, by rw [hunfold, if_pos hg], ?_⟩
      have hb : groupBoundary f0.inputGroup f1.inputGroup = "" := by
        rw [← hg, hx]
        simp [groupBoundary]
      simp only [formBody, hb, String.empty_append, String.append_assoc, List.map_cons, joinAll]
      rw [hbody]
      simp only [String.append_assoc]
    · refine ⟨[], (f1 :: r1) :: rs1, by rw [hunfold, if_neg hg], ?_⟩
      have hb : groupBoundary f0.inputGroup f1.inputGroup =
          html_endGroup "" ++ html_beginGroup "" f1.inputGroup := by
        rw [hx] at hg ⊢
        simp [groupBoundary, hg]
      simp only [formBody, hb, String.append_assoc, List.map_cons, List.map_nil, joinAll,
        renderRun, String.empty_append]
      rw [hbody, html_beginGroup_eq]
      simp only [String.append_assoc, html_endGroup, String.empty_append]

/-- With a group name on every descriptor, the form body and its closing tag
are the containers of the runs, one after the other. -/
theorem formBody_eq_runs (wifi : WiFiScan) (cfg : Json) (cfgOK : Bool)
    (fields : List InputField) (hgroups : ∀ f ∈ fields, f.inputGroup ≠ none) :
    formBody wifi cfg cfgOK none fields ++ formClose fields =
      joinAll ((groupRuns fields).map (renderRun wifi cfg cfgOK)) := by
  cases fields with
  | nil => simp [formBody, formClose, groupRuns, joinAll]
  | cons f0 fs =>
    obtain ⟨r, rs, hr, hbody⟩ := formBody_runs wifi cfg cfgOK fs
      (fun f hf => hgroups f (List.mem_cons_of_mem _ hf)) f0 (hgroups f0 (List.mem_cons_self _ _))
    have hlen : (f0 :: fs).length > 0 := by simp
    simp only [formBody, formClose, hlen, if_true, String.append_assoc]
    rw [hbody, hr]
    simp only [List.map_cons, joinAll, renderRun, groupBoundary, html_beginGroup_eq,
      String.append_assoc]

/-! ## The rendered page -/

/-- A page that is built has the markup of each descriptor at its place. -/
theorem web_sendConfigPage_eq_pageWith (wifi : WiFiScan) (pre : List InputField)
    (f : InputField) (post : List InputField) (cfg : Json) (page : String)
    (h : web_sendConfigPage wifi ⟨pre ++ f :: post⟩ cfg = some page) :
    page = pageWith wifi cfg pre f post (fieldMarkup wifi cfg (markedConfigured cfg) f) := by
  obtain ⟨cfgOK, hok, heq⟩ := web_sendConfigPage_eq wifi _ cfg page h
  have := web_sendConfigPage_cfgOK_some cfg cfgOK hok
  subst this
  rw [heq, formBody_append]
  have hlen : (pre ++ f :: post).length > 0 := by simp
  simp only [pageWith, formBody, formClose, hlen, if_true, html_endGroup, String.append_assoc,
    String.empty_append]

set_option maxRecDepth 100000 in
/-- C4, refuted as stated: a run whose group name is the empty string gets a
container without a legend.  And on a document whose `config` member is not a
string no page is built at all: `strcmp` is handed the null pointer the cast
yields. -/
theorem web_sendConfigPage_empty_group_name :
    web_sendConfigPage noNetworks
      ⟨[{ inputGroup := some "", type := "text", name := some "a", placeholder := none,
          value := none, checked := false }]⟩ .null =
    some (html_begin ++
      "<fieldset style='margin-top:1em; padding:0.5em; border:1px solid #ccc;'>" ++
      "<section><div class='field'><input type='text' name='a' id='a' placeholder=' '>" ++
      "</div></section>" ++ "</fieldset>" ++ html_end) ∧
    web_sendConfigPage noNetworks ⟨[nameField]⟩ (.obj [("config", .num 1)]) = none := by
  decide

/-- C4 (as amended): when every descriptor has a group name and the `config`
member of the document, if present, is a string, `web_sendConfigPage` builds
the page `html_begin`, one container per maximal run of equal group names, in
order, `html_end`.  Each container is an opening `<fieldset>`, a legend with
the run's group name unless that name is empty, the markup of the run's
descriptors, and the closing `</fieldset>`; so containers are never nested and
as many are closed as opened.  With no descriptor the page is `html_begin`
followed by `html_end`. -/
theorem web_sendConfigPage_groups (wifi : WiFiScan) (fields : List InputField) (cfg : Json)
    (hgroups : ∀ f ∈ fields, f.inputGroup ≠ none)
    (hcfg : cfg.containsKey "config" = true → ∃ s, cfg.getMember "config" = .str s) :
    web_sendConfigPage wifi ⟨fields⟩ cfg =
      some (html_begin ++
        joinAll ((groupRuns fields).map (renderRun wifi cfg (markedConfigured cfg))) ++
        html_end) ∧
    (groupRuns fields).flatten = fields ∧
    (∀ r ∈ groupRuns fields, r ≠ []) ∧
    (∀ r ∈ groupRuns fields, ∀ f ∈ r, ∀ g ∈ r, f.inputGroup = g.inputGroup) ∧
    List.Chain' (fun r1 r2 => ∀ f ∈ r1, ∀ g ∈ r2, f.inputGroup ≠ g.inputGroup)
      (groupRuns fields) ∧
    (∀ (f : InputField) (rest : List InputField),
      renderRun wifi cfg (markedConfigured cfg) (f :: rest) =
        "<fieldset style='margin-top:1em; padding:0.5em; border:1px solid #ccc;'>" ++
        (match f.inputGroup with
          | some l => if l = "" then "" else "<legend style='font-weight:bold;'>" ++ l ++ "</legend>"
          | none => "") ++
        joinAll ((f :: rest).map (fieldMarkup wifi cfg (markedConfigured cfg))) ++
        "</fieldset>") ∧
    web_sendConfigPage wifi ⟨[]⟩ cfg = some (html_begin ++ html_end) := by
  obtain ⟨h1, h2, h3, h4⟩ := groupRuns_spec fields
  refine ⟨?_, h1, h2, h3, h4, fun _ _ => rfl, ?_⟩
  · rw [web_sendConfigPage_wellFormed wifi fields cfg hgroups hcfg,
      ← formBody_eq_runs wifi cfg _ fields hgroups]
    simp only [String.append_assoc]
  · rw [web_sendConfigPage_wellFormed wifi [] cfg (by simp) hcfg]
    simp [formBody, formClose]

/-- Two descriptors of group `WiFi` followed by one of group `Device` form two
runs and are rendered as two containers. -/
theorem web_sendConfigPage_groups_witness :
    groupRuns [{ nameField with inputGroup := some "WiFi", name := some "ssid" },
               { nameField with inputGroup := some "WiFi", name := some "wifi_pwd" },
               nameField] =
      [[{ nameField with inputGroup := some "WiFi", name := some "ssid" },
        { nameField with inputGroup := some "WiFi", name := some "wifi_pwd" }],
       [nameField]] ∧
    web_sendConfigPage noNetworks
      ⟨[{ nameField with inputGroup := some "WiFi", name := some "ssid" },
        { nameField with inputGroup := some "WiFi", name := some "wifi_pwd" },
        nameField]⟩ minimalDoc =
      some (html_begin ++
        joinAll ((groupRuns
          [{ nameField with inputGroup := some "WiFi", name := some "ssid" },
           { nameField with inputGroup := some "WiFi", name := some "wifi_pwd" },
           nameField]).map (renderRun noNetworks minimalDoc (markedConfigured minimalDoc))) ++
        html_end) :=
  ⟨by decide,
   (web_sendConfigPage_groups noNetworks
      [{ nameField with inputGroup := some "WiFi", name := some "ssid" },
       { nameField with inputGroup := some "WiFi", name := some "wifi_pwd" },
       nameField] minimalDoc (by decide) (fun h => absurd h (by decide))).1⟩

set_option maxRecDepth 100000 in
/-- A field named `meta.x` is stored by `web_postConfig` under `meta`, and the
page sent back after the accepted submission of `meta.x=v` renders its input
without a value. -/
theorem web_postConfig_meta_field_not_prefilled :
    ((web_postConfig ArduinoJson.lib noNetworks ⟨[{ nameField with name := some "meta.x" }]⟩
        [("meta.x", "v"), ("btnAction", "save")] PostAction.Save freshState).cfg.getMember
        "meta").getMember "x" = .str "v" ∧
    web_sendConfigPage noNetworks ⟨[{ nameField with name := some "meta.x" }]⟩
        (web_postConfig ArduinoJson.lib noNetworks ⟨[{ nameField with name := some "meta.x" }]⟩
          [("meta.x", "v"), ("btnAction", "save")] PostAction.Save freshState).cfg =
      some (html_begin ++
        "<fieldset style='margin-top:1em; padding:0.5em; border:1px solid #ccc;'>" ++
        "<legend style='font-weight:bold;'>Device</legend>" ++
        "<section><div class='field'>" ++
        "<input type='text' name='meta.x' id='meta.x' placeholder=' '>" ++
        "<label for='meta.x'>Name</label>" ++
        "</div></section>" ++
        "</fieldset>" ++
        html_end) := by
  decide

/-- Textual inputs.  In any page `web_sendConfigPage` builds, a descriptor with
key `k` whose type is none of `checkbox`, `radio`, `ssid` is rendered, at its
place in the form, as one `<input>` of that type with `name` and `id` equal to
`k`, followed by its label.  The `value` attribute carries the string found
under the top-level key `k` of the document when the document is marked
configured and the descriptor's default otherwise, and it is left out exactly
when that string is null or empty.  The page is built whenever every
descriptor has a group name and the `config` member, if present, is a
string. -/
theorem web_sendConfigPage_textual (wifi : WiFiScan) (pre : List InputField)
    (f : InputField) (post : List InputField) (cfg : Json)
    (h1 : f.type ≠ "checkbox") (h2 : f.type ≠ "radio") (h3 : f.type ≠ "ssid") :
    (∀ (page k : String), web_sendConfigPage wifi ⟨pre ++ f :: post⟩ cfg = some page →
      f.name = some k →
      page = pageWith wifi cfg pre f post
        ("<section><div class='field'>" ++
         "<input type='" ++ f.type ++ "' name='" ++ k ++ "' id='" ++ k ++
           "' placeholder=' '" ++
           valueAttr (if markedConfigured cfg then (cfg.getMember k).asCStr else f.value) ++
           ">" ++
         labelFor (some k) f.placeholder ++
         "</div></section>")) ∧
    (markedConfigured cfg = true ↔
      (cfg.containsKey "config" = true ∧ cfg.getMember "config" = .str "done")) ∧
    (∀ v : CStr, valueAttr v = "" ↔ (v = none ∨ v = some "")) ∧
    (∀ v : String, v ≠ "" → valueAttr (some v) = " value='" ++ v ++ "'") ∧
    ((∀ g ∈ pre ++ f :: post, g.inputGroup ≠ none) →
      (cfg.containsKey "config" = true → ∃ s, cfg.getMember "config" = .str s) →
      ∃ page, web_sendConfigPage wifi ⟨pre ++ f :: post⟩ cfg = some page) := by
  refine ⟨?_, ?_, ?_, ?_, ?_⟩
  · intro page k h hk
    rw [web_sendConfigPage_eq_pageWith wifi pre f post cfg page h]
    unfold fieldMarkup fieldValue
    rw [html_appendInput_textual wifi _ _ _ _ _ h1 h2 h3, hk]
    rfl
  · simp [markedConfigured]
  · intro v
    cases v with
    | none => simp [valueAttr]
    | some v =>
      by_cases hv : v = ""
      · simp [valueAttr, hv]
      · simp only [valueAttr, hv, if_false, Option.some.injEq, or_false, reduceCtorEq, false_or,
          iff_false]
        intro he
        have := congrArg String.length he
        simp only [String.length_append] at this
        have h1 : "'".length = 1 := by decide
        have h0 : "".length = 0 := by decide
        omega
  · intro v hv
    simp [valueAttr, hv]
  · intro hgroups hcfg
    exact ⟨_, web_sendConfigPage_wellFormed wifi _ cfg hgroups hcfg⟩

set_option maxRecDepth 100000 in
/-- The empty document and the one text field `name` with default `device1`:
the input is rendered with `value='device1'`; on the document left by the
accepted submission of `name=MyDevice` it is rendered with
`value='MyDevice'`. -/
theorem web_sendConfigPage_textual_example :
    web_sendConfigPage noNetworks ⟨[nameField]⟩ .null = some (nameFieldPage " value='device1'") ∧
    web_sendConfigPage noNetworks ⟨[nameField]⟩
        (web_postConfig ArduinoJson.lib noNetworks ⟨[nameField]⟩
          [("name", "MyDevice"), ("btnAction", "save")] PostAction.Save freshState).cfg =
      some (nameFieldPage " value='MyDevice'") := by
  decide

set_option maxRecDepth 100000 in
/-- C7, where the code departs from it: the accepted submission of `meta.x=v`
leaves a document that is marked configured and holds `v` for the field
`meta.x` (under `meta`, where `web_postConfig` stores it), and on that
document `web_sendConfigPage` renders the input of the field `meta.x` without
any `value` attribute, neither the document's `v` nor the default `device1`.
The same value stored for the top-level field `name` is rendered. -/
theorem web_sendConfigPage_meta_key_value_missing :
    (web_postConfig ArduinoJson.lib noNetworks ⟨[metaField]⟩
        [("meta.x", "v"), ("btnAction", "save")] PostAction.Save freshState).cfg =
      .obj [("meta", .obj [("x", .str "v")]), ("config", .str "done")] ∧
    markedConfigured (.obj [("meta", .obj [("x", .str "v")]), ("config", .str "done")]) = true ∧
    ((Json.obj [("meta", .obj [("x", .str "v")]), ("config", .str "done")]).getMember
        "meta").getMember "x" = .str "v" ∧
    web_sendConfigPage noNetworks ⟨[metaField]⟩
        (.obj [("meta", .obj [("x", .str "v")]), ("config", .str "done")]) =
      some (metaFieldPage "") ∧
    metaFieldPage "" ≠ metaFieldPage " value='v'" ∧
    web_sendConfigPage noNetworks ⟨[nameField]⟩
        (.obj [("name", .str "v"), ("config", .str "done")]) =
      some (nameFieldPage " value='v'") := by
  decide

/-! ## Checkboxes -/

/-- C8, refuted as stated: for a checkbox named `config` the stored value is
`"done"` whether or not the box is ticked, and for one named `btnAction`
nothing is stored.  Nor is anything stored for a ticked checkbox `meta.flag`
submitted after a field named `meta`. -/
theorem web_postConfig_checkbox_reserved_name :
    (web_postConfig ArduinoJson.lib noNetworks ⟨[]⟩ (checkboxPairs "config" false)
        PostAction.Save freshState).cfg.getMember "config" = .str "done" ∧
    (web_postConfig ArduinoJson.lib noNetworks ⟨[]⟩ (checkboxPairs "config" true)
        PostAction.Save freshState).cfg.getMember "config" = .str "done" ∧
    (web_postConfig ArduinoJson.lib noNetworks ⟨[]⟩ (checkboxPairs "btnAction" true)
        PostAction.Save freshState).cfg.containsKey "btnAction" = false ∧
    ((web_postConfig ArduinoJson.lib noNetworks ⟨[]⟩
        ([("meta", "x")] ++ checkboxPairs "meta.flag" true)
        PostAction.Save freshState).cfg.getMember "meta").getMember "flag" = .null := by
  decide

/-- C8 (as amended): `html_appendInput` with type `checkbox` emits a hidden
input with the field's name and value `0`, then the checkbox input with the
same name, value `1` and the attribute `checked` exactly when the flag is set;
with type `radio` it emits the radio input alone.  When the pairs of such a
checkbox are submitted, and its name is neither `btnAction` nor `config` and
is not submitted again later, `web_postConfig` stores `"0"` for the box left
open and `"1"` for the ticked box: at the top level for a name that does not
start with `meta.`, and under `meta` for one that does (given a `meta` member
that is an object or missing and no pair named `meta`). -/
theorem html_appendInput_checkbox (wifi : WiFiScan) :
    (∀ (html : String) (fieldName placeholderText fieldValue : CStr) (checked : Bool),
      html_appendInput wifi html "checkbox" fieldName placeholderText fieldValue checked =
        html ++ "<p>" ++
        "<input type='hidden' name='" ++ cstr fieldName ++ "' value='0'>" ++
        "<input type='checkbox' name='" ++ cstr fieldName ++ "' value='1'" ++
        (if checked then " checked" else "") ++ ">" ++
        choiceText placeholderText ++ "</p>") ∧
    (∀ (html : String) (fieldName placeholderText fieldValue : CStr) (checked : Bool),
      html_appendInput wifi html "radio" fieldName placeholderText fieldValue checked =
        html ++ "<p>" ++
        "<input type='radio' name='" ++ cstr fieldName ++ "' value='1'" ++
        (if checked then " checked" else "") ++ ">" ++
        choiceText placeholderText ++ "</p>") ∧
    (∀ (lib : JsonLib) (userInputs : InputGroup) (pre post : List (String × String))
      (name : String) (ticked : Bool) (act0 : PostAction) (st : State),
      st.cfg.canAddMember = true → name ≠ "btnAction" → name ≠ "config" →
      (∀ p ∈ post, p.1 ≠ name) →
      ((¬ ∃ x : String, name = "meta." ++ x) →
        (web_postConfig lib wifi userInputs (pre ++ checkboxPairs name ticked ++ post) act0
          st).cfg.getMember name = .str (if ticked then "1" else "0")) ∧
      (∀ x : String, name = "meta." ++ x →
        (st.cfg.getMember "meta").canAddMember = true →
        (∀ p ∈ pre ++ post, p.1 ≠ "meta") →
        ((web_postConfig lib wifi userInputs (pre ++ checkboxPairs name ticked ++ post) act0
          st).cfg.getMember "meta").getMember x = .str (if ticked then "1" else "0"))) := by
  refine ⟨?_, ?_, ?_⟩
  · intro html fieldName placeholderText fieldValue checked
    rw [html_appendInput_append]
    unfold html_appendInput choiceText
    simp only [decide_True, Bool.not_true, Bool.false_and, Bool.and_false, Bool.false_eq_true,
      if_false, if_true, show decide ("checkbox" = "ssid") = false by decide,
      show decide ("checkbox" = "radio") = false by decide]
    have hlit : ∀ t : String, "<input type='" ++ ("checkbox" ++ ("' name='" ++ t)) =
        "<input type='checkbox' name='" ++ t := by
      intro t
      rw [← String.append_assoc, ← String.append_assoc]
      rfl
    cases placeholderText <;> cases checked <;>
      simp only [strlen_pos_iff, ne_eq, ite_not, Bool.false_eq_true, if_false, if_true]
    all_goals repeat' split
    all_goals simp only [String.append_assoc, String.empty_append, String.append_empty, hlit]
  · intro html fieldName placeholderText fieldValue checked
    rw [html_appendInput_append]
    unfold html_appendInput choiceText
    simp only [decide_True, Bool.not_true, Bool.false_and, Bool.and_false, Bool.false_eq_true,
      if_false, if_true, show decide ("radio" = "ssid") = false by decide,
      show decide ("radio" = "checkbox") = false by decide]
    have hlit : ∀ t : String, "<input type='" ++ ("radio" ++ ("' name='" ++ t)) =
        "<input type='radio' name='" ++ t := by
      intro t
      rw [← String.append_assoc, ← String.append_assoc]
      rfl
    cases placeholderText <;> cases checked <;>
      simp only [strlen_pos_iff, ne_eq, ite_not, Bool.false_eq_true, if_false, if_true]
    all_goals repeat' split
    all_goals simp only [String.append_assoc, String.empty_append, String.append_empty, hlit]
  · intro lib userInputs pre post name ticked act0 st hd hb hc hpost
    have hmeta_ne : ∀ x : String, name = "meta." ++ x → name ≠ "meta" :=
      fun x hx => hx ▸ meta_append_ne_meta x
    cases ticked with
    | false =>
      have hargs : pre ++ checkboxPairs name false ++ post = pre ++ (name, "0") :: post := by
        simp [checkboxPairs]
      rw [hargs]
      have key := web_postConfig_stores_pair lib wifi userInputs pre post name "0" act0 st hd hb
        hc hpost
      constructor
      · intro hk
        rw [key.1 hk]
        decide
      · intro x hx hm hno
        rw [key.2 x hx hm ?_]
        · decide
        · intro p hp
          rcases List.mem_append.mp hp with hp | hp
          · exact hno p (List.mem_append_left _ hp)
          · rcases List.mem_cons.mp hp with rfl | hp
            · exact hmeta_ne x hx
            · exact hno p (List.mem_append_right _ hp)
    | true =>
      have hargs : pre ++ checkboxPairs name true ++ post =
          (pre ++ [(name, "0")]) ++ (name, "1") :: post := by
        simp [checkboxPairs]
      rw [hargs]
      have key := web_postConfig_stores_pair lib wifi userInputs (pre ++ [(name, "0")]) post name
        "1" act0 st hd hb hc hpost
      constructor
      · intro hk
        rw [key.1 hk]
        decide
      · intro x hx hm hno
        rw [key.2 x hx hm ?_]
        · decide
        · intro p hp
          rcases List.mem_append.mp hp with hp | hp
          · rcases List.mem_append.mp hp with hp | hp
            · exact hno p (List.mem_append_left _ hp)
            · rw [List.mem_singleton] at hp
              subst hp
              exact hmeta_ne x hx
          · rcases List.mem_cons.mp hp with rfl | hp
            · exact hmeta_ne x hx
            · exact hno p (List.mem_append_right _ hp)

/-- A form with a text field and the checkbox `meta.flag`: left open it stores
`"0"`, ticked it stores `"1"`. -/
theorem html_appendInput_checkbox_witness :
    ((web_postConfig ArduinoJson.lib noNetworks ⟨[]⟩
        ([("name", "MyDevice")] ++ checkboxPairs "meta.flag" false ++ [("btnAction", "save")])
        PostAction.Save freshState).cfg.getMember "meta").getMember "flag" = .str "0" ∧
    ((web_postConfig ArduinoJson.lib noNetworks ⟨[]⟩
        ([("name", "MyDevice")] ++ checkboxPairs "meta.flag" true ++ [("btnAction", "save")])
        PostAction.Save freshState).cfg.getMember "meta").getMember "flag" = .str "1" :=
  ⟨((html_appendInput_checkbox noNetworks).2.2 ArduinoJson.lib ⟨[]⟩ [("name", "MyDevice")]
      [("btnAction", "save")] "meta.flag" false PostAction.Save freshState rfl
      (by decide) (by decide) (by decide)).2 "flag" (by decide) (by decide) (by decide),
   ((html_appendInput_checkbox noNetworks).2.2 ArduinoJson.lib ⟨[]⟩ [("name", "MyDevice")]
      [("btnAction", "save")] "meta.flag" true PostAction.Save freshState rfl
      (by decide) (by decide) (by decide)).2 "flag" (by decide) (by decide) (by decide)⟩

end ConfigPortal
